import Mathlib

/-!
Verification of the sparse count-matrix storage engine in
`src/lib/python/cellranger/matrix.py`.

The Python code is shallowly embedded: scipy sparse matrices are modelled by
an explicit tagged representation (`SpMatrix`) with a mutable-friendly dense
column-list layout (`lil`, modelling `scipy.sparse.lil_matrix`: an explicit
zero is never stored, so only the held values matter) and a
compressed-sparse-column layout (`Csc`, modelling `scipy.sparse.csc_matrix`
as its three flat arrays plus a shape).  Machine integer values (the matrix
dtype, default int32, is caller-chosen and the persistence path is
dtype-agnostic) are modelled as `Int`; array indices and `indptr` offsets as
`Nat`.  HDF5 files and groups are modelled as records holding exactly the
attributes and datasets the code reads and writes.  Fallible Python code
(exceptions / assertions) is modelled with `Option` / `Except`.
-/

/-! Helper lemmas about list indexing, prefix sums and flattened segments. -/

/-- Default string used for in-range list lookups whose Python counterpart
would raise on an out-of-range index. -/
def dfltStr : String := ""

/-- A dense column-major matrix: a list of columns, each column a list of
row values.  This is the value content of a `scipy.sparse.lil_matrix`. -/
abbrev DenseCols := List (List Int)

/-- Value at row `i`, column `j` of a dense column list (0 outside). -/
def denseEntry (D : DenseCols) (i j : Nat) : Int := (D.getD j []).getD i 0

/-- Nonzero entries of one column as `(row index, value)` pairs, in ascending
row order, starting the row count at `k`. -/
def colNZAux (k : Nat) : List Int → List (Nat × Int)
  | [] => []
  | v :: t => (if v ≠ 0 then [(k, v)] else []) ++ colNZAux (k + 1) t

/-- Nonzero entries of a column with their row indices, ascending. -/
def colNZ (col : List Int) : List (Nat × Int) := colNZAux 0 col

/-- Compressed-sparse-column storage: the three flat arrays `data`,
`indices`, `indptr` of a `scipy.sparse.csc_matrix`, plus its shape
`(rows, cols)`. -/
structure Csc where
  data : List Int
  indices : List Nat
  indptr : List Nat
  shape : Nat × Nat

deriving DecidableEq

/-- Sum of the values in a `(row, value)` segment whose row equals `i`
(scipy sums duplicate coordinates). -/
def segSum (seg : List (Nat × Int)) (i : Nat) : Int :=
  (seg.map (fun p => if p.1 = i then p.2 else 0)).sum

/-- Number of stored entries in the first `j` column segments. -/
def prefLen (segs : List (List α)) (j : Nat) : Nat :=
  ((segs.take j).map List.length).sum

/-- Build a CSC matrix from per-column `(row, value)` segments: `data` and
`indices` are the concatenated segments, `indptr` the running entry counts. -/
def fromSegs (rows : Nat) (segs : List (List (Nat × Int))) : Csc :=
  { data := (segs.map (fun s => s.map Prod.snd)).flatten
    indices := (segs.map (fun s => s.map Prod.fst)).flatten
    indptr := List.scanl (fun a s => a + s.length) 0 segs
    shape := (rows, segs.length) }

/-- Value at `(i, j)` of a CSC matrix: the sum of stored values inside the
column-`j` segment `[indptr[j], indptr[j+1])` whose row index is `i`. -/
def Csc.entry (c : Csc) (i j : Nat) : Int :=
  ((List.range' (c.indptr.getD j 0) (c.indptr.getD (j + 1) 0 - c.indptr.getD j 0)).map
    (fun k => if c.indices.getD k 0 = i then c.data.getD k 0 else 0)).sum

/-- Canonical CSC form of a dense column list (`scipy` `.tocsc()`). -/
def denseToCsc (rows : Nat) (D : DenseCols) : Csc := fromSegs rows (D.map colNZ)

/-- Materialize a CSC matrix as a dense column list. -/
def Csc.toDense (c : Csc) : DenseCols :=
  (List.range c.shape.2).map (fun j => (List.range c.shape.1).map (fun i => c.entry i j))

/-- The `(row, value)` pairs stored for column `j` of a CSC matrix. -/
def cscColPairs (c : Csc) (j : Nat) : List (Nat × Int) :=
  (List.range' (c.indptr.getD j 0) (c.indptr.getD (j + 1) 0 - c.indptr.getD j 0)).map
    (fun k => (c.indices.getD k 0, c.data.getD k 0))

/-- Column fancy indexing `m[:, indices]` on a CSC matrix: the listed columns'
segments, in the listed order (scipy keeps duplicates and input order). -/
def Csc.selectCols (c : Csc) (idx : List Nat) : Csc :=
  fromSegs c.shape.1 (idx.map (cscColPairs c))

/-- Row fancy indexing `m[indices, :]` on a CSC matrix, modelled by its
entrywise contract: entry `(t, j)` of the result is entry `(indices[t], j)`
of the input, recompressed canonically. -/
def Csc.selectRows (c : Csc) (idx : List Nat) : Csc :=
  fromSegs idx.length
    ((List.range c.shape.2).map (fun j => colNZ (idx.map (fun i => c.entry i j))))

/-- The sparse matrix held by a `CountMatrix`, in one of the layouts the code
uses: the mutable list-of-lists layout or the compressed-sparse-column
layout.  (The coordinate layout only feeds the text writer, which the claims
treat through `matrix.mtx` file contents directly.) -/
inductive SpMatrix where
  | lil (rows : Nat) (d : DenseCols)
  | csc (c : Csc)

deriving DecidableEq

/-- Shape `(rows, cols)` of the matrix. -/
def SpMatrix.shape : SpMatrix → Nat × Nat
  | .lil rows d => (rows, d.length)
  | .csc c => c.shape

/-- Value at `(i, j)`. -/
def SpMatrix.entry : SpMatrix → Nat → Nat → Int
  | .lil _ d, i, j => denseEntry d i j
  | .csc c, i, j => c.entry i j

/-- Layout conversion `.tocsc()`: a no-op when already CSC. -/
def SpMatrix.tocsc : SpMatrix → Csc
  | .lil rows d => denseToCsc rows d
  | .csc c => c

/-- Overwrite one coefficient of a dense column list. -/
def updateDense (d : DenseCols) (i j : Nat) (v : Int) : DenseCols :=
  d.set j ((d.getD j []).set i v)

/-- Single-coefficient assignment `m[i, j] = v`.  On the lil layout this is a
plain in-place write; on the CSC layout scipy re-inserts canonically, which
is modelled by materializing, writing, and recompressing. -/
def SpMatrix.setEntry : SpMatrix → Nat → Nat → Int → SpMatrix
  | .lil rows d, i, j, v => .lil rows (updateDense d i j v)
  | .csc c, i, j, v => .csc (denseToCsc c.shape.1 (updateDense c.toDense i j v))

/-- Column fancy indexing `m[:, indices]`. -/
def SpMatrix.selectCols : SpMatrix → List Nat → SpMatrix
  | .lil rows d, idx => .lil rows (idx.map (fun j => d.getD j []))
  | .csc c, idx => .csc (c.selectCols idx)

/-- Row fancy indexing `m[indices, :]`. -/
def SpMatrix.selectRows : SpMatrix → List Nat → SpMatrix
  | .lil _ d, idx => .lil idx.length (d.map (fun col => idx.map (fun i => col.getD i 0)))
  | .csc c, idx => .csc (c.selectRows idx)

/-- Scalar sum over the whole matrix (`m.sum()` with no axis). -/
def SpMatrix.sumAll (m : SpMatrix) : Int :=
  ((List.range m.shape.1).map (fun i =>
    ((List.range m.shape.2).map (fun j => m.entry i j)).sum)).sum

/-- Per-column sums of the matrix (the mathematical content of the axis-0
reduction, before numpy's squeeze). -/
def SpMatrix.colSums (m : SpMatrix) : List Int :=
  (List.range m.shape.2).map (fun j =>
    ((List.range m.shape.1).map (fun i => m.entry i j)).sum)

/-- The result of `np.squeeze` on the 1-by-cols row vector `m.sum(axis=0)`:
`np.squeeze` removes every singleton axis, so the result is a 1-d array of
the per-column sums unless there is exactly one column, in which case it
degenerates to a 0-d array - a scalar that cannot be iterated. -/
inductive NpSqueezed where
  | arr (l : List Int)
  | scalar (v : Int)
deriving DecidableEq

/-- `sum_sparse_matrix(matrix, axis=0)` from the source:
`np.squeeze(np.asarray(matrix.sum(axis=0)))`, including the degenerate 0-d
result on a single-column matrix. -/
def sum_sparse_matrix_axis0 (m : SpMatrix) : NpSqueezed :=
  match m.colSums with
  | [v] => .scalar v
  | l => .arr l

/-- Last index at which `x` occurs in `l`, counting from `k` (the Python dict
comprehension, keyed by element with the enumeration index as value, keeps
the last write). -/
def lastIdxFrom (k : Nat) : List String → String → Option Nat
  | [], _ => none
  | y :: t, x =>
    match lastIdxFrom (k + 1) t x with
    | some j => some j
    | none => if y = x then some k else none

/-- Lookup in a Python dict built by enumeration: last occurrence wins. -/
def dictIdx (l : List String) (x : String) : Option Nat := lastIdxFrom 0 l x

/-- The in-memory count matrix: the feature axis (reduced to the feature id
strings, whose positions are the dense feature indices), the barcode strings,
and the sparse numeric storage. -/
structure CountMatrix where
  feature_ids : List String
  bcs : List String
  m : SpMatrix

deriving DecidableEq

/-- Number of feature-axis positions. -/
def CountMatrix.features_dim (M : CountMatrix) : Nat := M.feature_ids.length

/-- Number of barcode-axis positions. -/
def CountMatrix.bcs_dim (M : CountMatrix) : Nat := M.bcs.length

/-- `CountMatrix.empty`: an all-zero lil matrix over the given axes. -/
def CountMatrix.empty (feature_ids bcs : List String) : CountMatrix :=
  { feature_ids := feature_ids
    bcs := bcs
    m := .lil feature_ids.length
      (List.replicate bcs.length (List.replicate feature_ids.length 0)) }

/-- `feature_id_to_int`: `none` models the `KeyError` on an unknown id. -/
def CountMatrix.feature_id_to_int (M : CountMatrix) (fid : String) : Option Nat :=
  dictIdx M.feature_ids fid

/-- `bc_to_int`: `none` models the `KeyError` on an unknown barcode. -/
def CountMatrix.bc_to_int (M : CountMatrix) (bc : String) : Option Nat :=
  dictIdx M.bcs bc

/-- `feature_ids_to_ints`: resolve each id and sort the indices ascending. -/
def CountMatrix.feature_ids_to_ints (M : CountMatrix) (fids : List String) :
    Option (List Nat) :=
  (fids.mapM M.feature_id_to_int).map (List.insertionSort (· ≤ ·))

/-- `bcs_to_ints`: resolve each barcode and sort the indices ascending. -/
def CountMatrix.bcs_to_ints (M : CountMatrix) (bcs : List String) :
    Option (List Nat) :=
  (bcs.mapM M.bc_to_int).map (List.insertionSort (· ≤ ·))

/-- `CountMatrix.add`: resolve both ids and increment the coefficient. -/
def CountMatrix.add (M : CountMatrix) (feature_id bc : String) (value : Int) :
    Option CountMatrix :=
  match M.feature_id_to_int feature_id, M.bc_to_int bc with
  | some i, some j => some { M with m := M.m.setEntry i j (M.m.entry i j + value) }
  | _, _ => none

/-- A sequence of `add` calls, failing as soon as one raises. -/
def applyAdds : List (String × String × Int) → CountMatrix → Option CountMatrix
  | [], M => some M
  | (fid, bc, v) :: t, M => (M.add fid bc v).bind (applyAdds t)

/-- `select_barcodes`: new barcode list `[bcs[i] for i in indices]` and
column fancy indexing `m[:, indices]`. -/
def CountMatrix.select_barcodes (M : CountMatrix) (indices : List Nat) : CountMatrix :=
  { feature_ids := M.feature_ids
    bcs := indices.map (fun i => M.bcs.getD i dfltStr)
    m := M.m.selectCols indices }

/-- `select_features`: new feature list `[feature_defs[i] for i in indices]`
and row fancy indexing `m[indices, :]`. -/
def CountMatrix.select_features (M : CountMatrix) (indices : List Nat) : CountMatrix :=
  { feature_ids := indices.map (fun i => M.feature_ids.getD i dfltStr)
    bcs := M.bcs
    m := M.m.selectRows indices }

/-- `get_counts_per_bc`: the squeezed per-barcode totals. -/
def CountMatrix.get_counts_per_bc (M : CountMatrix) : NpSqueezed :=
  sum_sparse_matrix_axis0 M.m

/-- Python `sorted(l, reverse=True)` on integer values. -/
def sortDesc (l : List Int) : List Int := l.insertionSort (fun a b => b ≤ a)

/-- `get_top_bcs(cutoff)`: indices of barcodes whose total is at least the
value at clamped position `max(0, min(size, cutoff) - 1)` of the descending
sort of the totals.  `sorted(reads_per_bc, reverse=True)` iterates the
squeezed totals, so the 0-d result on a single-column matrix raises
`TypeError`, and on an empty barcode axis the subscript raises `IndexError`;
both failures are modelled as `none`. -/
def CountMatrix.get_top_bcs (M : CountMatrix) (cutoff : Int) : Option (List Nat) :=
  match M.get_counts_per_bc with
  | .scalar _ => none
  | .arr reads_per_bc =>
    if reads_per_bc.isEmpty then none
    else
      let n := reads_per_bc.length
      let index := (max 0 (min (n : Int) cutoff - 1)).toNat
      let value := (sortDesc reads_per_bc).getD index 0
      some ((List.range n).filter (fun j => value ≤ reads_per_bc.getD j 0))

/-- The c-th largest element of a list of totals (1-based), per the spec's
wording for `get_top_bcs`. -/
def kthLargest (l : List Int) (c : Nat) : Int := (sortDesc l).getD (c - 1) 0

/-- A boolean mask over `n` positions with the listed positions set
(`mask.fill(False); mask[indices] = True`). -/
def maskFromIndices (n : Nat) (idx : List Nat) : List Bool :=
  (List.range n).map (fun i => decide (i ∈ idx))

/-- `CountMatrixView`: two boolean masks plus the borrowed matrix. -/
structure CountMatrixView where
  feature_mask : List Bool
  bc_mask : List Bool
  matrix : CountMatrix

/-- The `CountMatrixView` constructor with both index lists given. -/
def CountMatrixView.ofIndices (M : CountMatrix) (fIdx bIdx : List Nat) :
    CountMatrixView :=
  { feature_mask := maskFromIndices M.features_dim fIdx
    bc_mask := maskFromIndices M.bcs_dim bIdx
    matrix := M }

/-- Modelled from the spec: `cr_sparse.sum_masked(m, fmask, bmask, axis=None)`
(the `cellranger.sparse` module is not under `src/`): "compute the reduction
over only the masked sub-rectangle of the underlying storage"; `axis=None`
reduces the whole masked rectangle to a scalar. -/
def sum_masked (m : SpMatrix) (fmask bmask : List Bool) : Int :=
  ((List.range fmask.length).map (fun i =>
    ((List.range bmask.length).map (fun j =>
      if fmask.getD i false && bmask.getD j false then m.entry i j else 0)).sum)).sum

/-- `CountMatrixView.sum(axis=None)`. -/
def CountMatrixView.sum (v : CountMatrixView) : Int :=
  sum_masked v.matrix.m v.feature_mask v.bc_mask

/-- The errors the persistence layer can surface. -/
inductive MatrixError where
  | invalidFile
  | unsupportedVersion
  | obsoleteVersion
  | missingGroup
  | corruptData
  | bounds

deriving DecidableEq

/-- The HDF5 `matrix` group: feature-reference sub-group (reduced to the
feature ids), the barcode string dataset, and the four numeric datasets. -/
structure H5Group where
  feature_ids : List String
  bcs : List String
  shape : Nat × Nat
  data : List Int
  indices : List Nat
  indptr : List Nat

deriving DecidableEq

/-- A matrix HDF5 file: the top-level `filetype` and `version` attributes
(each possibly absent) and the `matrix` group (possibly absent). -/
structure H5File where
  filetype : Option String
  version : Option Int
  matrix : Option H5Group

deriving DecidableEq

/-- The reserved matrix file-type tag, `MATRIX_H5_FILETYPE`. -/
def MATRIX_H5_FILETYPE : String := "matrix"

/-- The current format version, `MATRIX_H5_VERSION`. -/
def MATRIX_H5_VERSION : Int := 2

/-- `save_h5_group`: convert to CSC and write barcodes plus the four arrays. -/
def CountMatrix.save_h5_group (M : CountMatrix) : H5Group :=
  let c := M.m.tocsc
  { feature_ids := M.feature_ids
    bcs := M.bcs
    shape := c.shape
    data := c.data
    indices := c.indices
    indptr := c.indptr }

/-- `save_h5_file`: write the file-type tag, the current version, and the
`matrix` group. -/
def CountMatrix.save_h5_file (M : CountMatrix) : H5File :=
  { filetype := some MATRIX_H5_FILETYPE
    version := some MATRIX_H5_VERSION
    matrix := some M.save_h5_group }

/-- The load-time check `np.all(np.diff(indptr) >= 0)`. -/
def checkMono : List Nat → Bool
  | a :: b :: t => decide (a ≤ b) && checkMono (b :: t)
  | _ => true

/-- `CountMatrix.load`: read the arrays, assert `indptr` is monotonically
non-decreasing, and rebuild the CSC matrix. -/
def CountMatrix.load (g : H5Group) : Except MatrixError CountMatrix :=
  if checkMono g.indptr then
    .ok { feature_ids := g.feature_ids
          bcs := g.bcs
          m := .csc { data := g.data, indices := g.indices,
                      indptr := g.indptr, shape := g.shape } }
  else .error .corruptData

/-- `load_h5_file`: validate the file-type tag, gate on the version attribute
(absent means version 1), then load the `matrix` group. -/
def CountMatrix.load_h5_file (f : H5File) : Except MatrixError CountMatrix :=
  if f.filetype ≠ some MATRIX_H5_FILETYPE then .error .invalidFile
  else
    let version := f.version.getD 1
    if MATRIX_H5_VERSION < version then .error .unsupportedVersion
    else if version < MATRIX_H5_VERSION then .error .obsoleteVersion
    else
      match f.matrix with
      | none => .error .missingGroup
      | some g => CountMatrix.load g

/-- `load_chunk(group, col_start, col_end)`: assert the bounds
`0 <= col_start < shape[1]` and `0 <= col_end <= shape[1]` (note: no
`col_start <= col_end` check), then rebuild the column range from
`indptr[col_start:col_end]` re-based by `indptr[col_start]` with the end
offset appended. -/
def CountMatrix.load_chunk (g : H5Group) (col_start col_end : Int) :
    Except MatrixError CountMatrix :=
  if 0 ≤ col_start ∧ col_start < (g.shape.2 : Int) ∧
     0 ≤ col_end ∧ col_end ≤ (g.shape.2 : Int) then
    let a := col_start.toNat
    let b := col_end.toNat
    let bcs := (g.bcs.drop a).take (b - a)
    let ind_start := g.indptr.getD a 0
    let ind_end := if (b : Int) < (g.indptr.length : Int) - 1 then g.indptr.getD b 0
                   else g.data.length
    let chunk_data := (g.data.drop ind_start).take (ind_end - ind_start)
    let chunk_indices := (g.indices.drop ind_start).take (ind_end - ind_start)
    let chunk_indptr :=
      (((g.indptr.drop a).take (b - a)) ++ [ind_end]).map (fun x => x - ind_start)
    .ok { feature_ids := g.feature_ids
          bcs := bcs
          m := .csc { data := chunk_data, indices := chunk_indices,
                      indptr := chunk_indptr, shape := (g.shape.1, b - a) } }
  else .error .bounds

/-- Whitespace recognised by Python `str.split()` on these files. -/
def isWS (ch : Char) : Bool := ch == ' ' || ch == '\t' || ch == '\n' || ch == '\r'

/-- Split a character stream into whitespace-separated words. -/
def wordsAux : List Char → List Char → List (List Char)
  | [], acc => if acc.isEmpty then [] else [acc.reverse]
  | ch :: t, acc =>
    if isWS ch then
      (if acc.isEmpty then wordsAux t [] else acc.reverse :: wordsAux t [])
    else wordsAux t (ch :: acc)

/-- Parse a run of decimal digits (`int(...)` on the header fields). -/
def digitsToNatAux : List Char → Nat → Option Nat
  | [], acc => some acc
  | ch :: t, acc =>
    if '0' ≤ ch ∧ ch ≤ '9' then digitsToNatAux t (acc * 10 + (ch.toNat - Char.toNat '0'))
    else none

/-- Parse one word as a natural number; empty or non-digit input fails. -/
def wordToNat (w : List Char) : Option Nat :=
  if w.isEmpty then none else digitsToNatAux w 0

/-- Parse a MatrixMarket dimensions line,
`(genes, bcs, data) = map(int, line.rstrip().split())`. -/
def parseDims (line : String) : Option (Nat × Nat × Nat) :=
  match (wordsAux line.toList []).map wordToNat with
  | [some a, some b, some c] => some (a, b, c)
  | _ => none

/-- Render a dimensions line, `' '.join(map(str, [genes, bcs, data]))`. -/
def joinDims (genes bcs data : Nat) : String :=
  toString genes ++ " " ++ toString bcs ++ " " ++ toString data

/-- The loop of `concatenate_mtx` summing the remaining files' entry counts. -/
def sumRestCounts : List (List String) → Nat → Option Nat
  | [], acc => some acc
  | f :: t, acc =>
    match parseDims (f.getD 2 dfltStr) with
    | none => none
    | some (_, _, d) => sumRestCounts t (acc + d)

/-- `concatenate_mtx(mtx_list, out_mtx)`: a file is its list of lines.  An
empty input list writes nothing (`none`); otherwise the output is the first
file's two header lines, a corrected dimensions line (first file's rows and
cols, summed nonzero counts), then every file's lines after its first three,
in order. -/
def concatenate_mtx (files : List (List String)) : Option (List String) :=
  match files with
  | [] => none
  | f0 :: rest =>
    match parseDims (f0.getD 2 dfltStr) with
    | none => none
    | some (genes, bcs, d0) =>
      match sumRestCounts rest d0 with
      | none => none
      | some total =>
        some (f0.getD 0 dfltStr :: f0.getD 1 dfltStr :: joinDims genes bcs total ::
          (files.map (fun f => f.drop 3)).flatten)

deriving instance DecidableEq for Except

/-- A small concrete matrix with one feature and one barcode, used to
instantiate hypotheses at concrete inputs. -/
def MEx1 : CountMatrix :=
  { feature_ids := ["g1"], bcs := ["b1"], m := .lil 1 [[5]] }

/-- The persisted group of `MEx1`. -/
def gEx1 : H5Group := MEx1.save_h5_group

/-- A concrete matrix with one feature and two barcodes. -/
def MEx2 : CountMatrix :=
  { feature_ids := ["g1"], bcs := ["b1", "b2"], m := .lil 1 [[5], [0]] }

/-- The persisted group of `MEx2`. -/
def gEx2 : H5Group := MEx2.save_h5_group

/-- A concrete 2-by-2 matrix. -/
def MEx5 : CountMatrix :=
  { feature_ids := ["f0", "f1"], bcs := ["b0", "b1"], m := .lil 2 [[1, 0], [0, 2]] }

/-- A concrete group whose indptr decreases, modelling a corrupted file. -/
def gBad : H5Group :=
  { feature_ids := ["g1"], bcs := ["b1", "b2"], shape := (1, 2),
    data := [5], indices := [0], indptr := [0, 1, 0] }

/-- One text-interchange input file as the claim describes it: two header
comment lines, a dimensions line announcing `rows cols nnz`, and the data
lines. -/
structure MtxSpec where
  h1 : String
  h2 : String
  dline : String
  rows : Nat
  cols : Nat
  nnz : Nat
  body : List String

/-- The lines of the file an `MtxSpec` describes. -/
def MtxSpec.render (s : MtxSpec) : List String := s.h1 :: s.h2 :: s.dline :: s.body

/-- The first concrete text file of the claim's scenario: header "3 2 2" and
two data lines. -/
def mtxA : MtxSpec :=
  { h1 := "%%MatrixMarket matrix coordinate integer general", h2 := "%",
    dline := "3 2 2", rows := 3, cols := 2, nnz := 2, body := ["1 1 5", "2 2 2"] }

/-- The second concrete text file of the claim's scenario. -/
def mtxB : MtxSpec :=
  { h1 := "%%MatrixMarket matrix coordinate integer general", h2 := "%",
    dline := "3 2 2", rows := 3, cols := 2, nnz := 2, body := ["1 2 1", "3 1 4"] }

/-- The concrete matrix reached from `empty(["g1","g2","g3"],
["AAAA-1","CCCC-1"])` by `add("g1","AAAA-1",5)` and `add("g2","CCCC-1",2)`. -/
def MC1 : CountMatrix :=
  { feature_ids := ["g1", "g2", "g3"], bcs := ["AAAA-1", "CCCC-1"],
    m := .lil 3 [[5, 0, 0], [0, 2, 0]] }

/-- The CSC sub-matrix `load_chunk` builds for columns `[a, b)` of the
canonical on-disk form of a dense matrix (with the end offset already
resolved to the prefix count at `b`). -/
def chunkOf (r : Nat) (D : DenseCols) (a b : Nat) : Csc :=
  Csc.mk
    (((denseToCsc r D).data.drop ((denseToCsc r D).indptr.getD a 0)).take
      (prefLen (D.map colNZ) b - (denseToCsc r D).indptr.getD a 0))
    (((denseToCsc r D).indices.drop ((denseToCsc r D).indptr.getD a 0)).take
      (prefLen (D.map colNZ) b - (denseToCsc r D).indptr.getD a 0))
    ((((denseToCsc r D).indptr.drop a).take (b - a) ++ [prefLen (D.map colNZ) b]).map
      (fun x => x - (denseToCsc r D).indptr.getD a 0))
    (r, b - a)

/-! Lemmas and claim theorems. -/

theorem getD_append_left {α : Type} {l₁ l₂ : List α} {n : Nat} (h : n < l₁.length) (d : α) :
    (l₁ ++ l₂).getD n d = l₁.getD n d := by
  simp [List.getD_eq_getElem?_getD, List.getElem?_append_left h]

theorem getD_append_right {α : Type} {l₁ l₂ : List α} {n : Nat} (h : l₁.length ≤ n) (d : α) :
    (l₁ ++ l₂).getD n d = l₂.getD (n - l₁.length) d := by
  simp [List.getD_eq_getElem?_getD, List.getElem?_append_right h]

theorem getD_oob {α : Type} {l : List α} {n : Nat} (h : l.length ≤ n) (d : α) :
    l.getD n d = d := by
  simp [List.getD_eq_getElem?_getD, List.getElem?_eq_none h]

theorem getD_map_lt {α β : Type} (f : α → β) {l : List α} {n : Nat} (h : n < l.length)
    (d : α) (d' : β) : (l.map f).getD n d' = f (l.getD n d) := by
  simp [List.getD_eq_getElem?_getD, List.getElem?_map, List.getElem?_eq_getElem h]

theorem getD_range {n t : Nat} (h : t < n) (d : Nat) : (List.range n).getD t d = t := by
  simp [List.getD_eq_getElem?_getD, List.getElem?_range h]

theorem getD_range'_lt {s n t : Nat} (h : t < n) (d : Nat) :
    (List.range' s n).getD t d = s + t := by
  simp [List.getD_eq_getElem?_getD, List.getElem?_range' s 1 h]

theorem getD_drop_take {α : Type} (l : List α) (p q k : Nat) (h : k < q) (d : α) :
    ((l.drop p).take q).getD k d = l.getD (p + k) d := by
  simp [List.getD_eq_getElem?_getD, List.getElem?_take, h, List.getElem?_drop]

theorem map_getD_range {α β : Type} (f : α → β) (d : α) :
    ∀ (l : List α), (List.range l.length).map (fun i => f (l.getD i d)) = l.map f := by
  intro l
  induction l with
  | nil => rfl
  | cons hd tl ih =>
    show (List.range (tl.length + 1)).map _ = _
    rw [List.range_succ_eq_map]
    simp only [List.map_cons, List.map_map, Function.comp_def, List.getD_cons_zero,
      List.getD_cons_succ]
    rw [ih]

theorem sum_range'_shift (f : Nat → Int) (p : Nat) :
    ∀ (n s : Nat), ((List.range' (p + s) n).map f).sum =
      ((List.range' s n).map (fun k => f (p + k))).sum := by
  intro n
  induction n with
  | zero => intro s; rfl
  | succ m ih =>
    intro s
    rw [List.range'_succ, List.range'_succ]
    simp only [List.map_cons, List.sum_cons]
    have h1 : p + s + 1 = p + (s + 1) := by omega
    rw [h1, ih (s + 1)]

theorem prefLen_zero {α : Type} (segs : List (List α)) : prefLen segs 0 = 0 := by
  simp [prefLen]

theorem prefLen_cons_succ {α : Type} (s : List α) (t : List (List α)) (j : Nat) :
    prefLen (s :: t) (j + 1) = s.length + prefLen t j := by
  simp [prefLen, List.take_succ_cons]

theorem prefLen_succ {α : Type} :
    ∀ (segs : List (List α)) (j : Nat), j < segs.length →
      prefLen segs (j + 1) = prefLen segs j + (segs.getD j []).length := by
  intro segs
  induction segs with
  | nil => intro j hj; simp at hj
  | cons s t ih =>
    intro j hj
    cases j with
    | zero => simp [prefLen_cons_succ, prefLen_zero]
    | succ j' =>
      have h := ih j' (by simpa using hj)
      simp only [prefLen_cons_succ, List.getD_cons_succ, h]
      omega

theorem prefLen_map_len {α β : Type} (f : α → β) (segs : List (List α)) (j : Nat) :
    prefLen (segs.map (List.map f)) j = prefLen segs j := by
  unfold prefLen
  rw [← List.map_take, List.map_map]
  congr 1
  apply List.map_congr_left
  intro a _
  simp

theorem scanl_len_getD {α : Type} :
    ∀ (segs : List (List α)) (c j : Nat), j ≤ segs.length →
      (List.scanl (fun a s => a + s.length) c segs).getD j 0 = c + prefLen segs j := by
  intro segs
  induction segs with
  | nil =>
    intro c j hj
    have hj0 : j = 0 := by simpa using hj
    subst hj0
    simp [prefLen_zero]
  | cons s t ih =>
    intro c j hj
    rw [List.scanl_cons]
    cases j with
    | zero => simp [prefLen_zero]
    | succ j' =>
      have h := ih (c + s.length) j' (by simpa using hj)
      simp only [List.cons_append, List.nil_append, List.getD_cons_succ, h,
        prefLen_cons_succ]
      omega

theorem scanl_len_getD_oob {α : Type} (segs : List (List α)) (c j : Nat)
    (hj : segs.length + 1 ≤ j) :
    (List.scanl (fun a s => a + s.length) c segs).getD j 0 = 0 := by
  apply getD_oob
  rw [List.length_scanl]
  omega

theorem flatten_getD {α : Type} (d : α) :
    ∀ (ss : List (List α)) (j t : Nat), j < ss.length → t < (ss.getD j []).length →
      ss.flatten.getD (prefLen ss j + t) d = (ss.getD j []).getD t d := by
  intro ss
  induction ss with
  | nil => intro j t hj _; simp at hj
  | cons s tail ih =>
    intro j t hj ht
    cases j with
    | zero =>
      simp only [List.getD_cons_zero] at ht ⊢
      simp only [List.flatten_cons, prefLen_zero, Nat.zero_add]
      exact getD_append_left ht d
    | succ j' =>
      simp only [List.getD_cons_succ] at ht ⊢
      simp only [List.flatten_cons, prefLen_cons_succ]
      have h1 : s.length + prefLen tail j' + t = s.length + (prefLen tail j' + t) := by
        omega
      rw [h1, getD_append_right (by omega) d]
      have h2 : s.length + (prefLen tail j' + t) - s.length = prefLen tail j' + t := by
        omega
      rw [h2]
      exact ih j' t (by simpa using hj) ht

theorem flatten_length_prefLen {α : Type} (ss : List (List α)) :
    ss.flatten.length = prefLen ss ss.length := by
  simp [prefLen, List.take_length, List.length_flatten]

theorem segSum_append (a b : List (Nat × Int)) (i : Nat) :
    segSum (a ++ b) i = segSum a i + segSum b i := by
  simp [segSum]

theorem segSum_colNZAux :
    ∀ (col : List Int) (k i : Nat),
      segSum (colNZAux k col) i = if k ≤ i then col.getD (i - k) 0 else 0 := by
  intro col
  induction col with
  | nil =>
    intro k i
    simp only [colNZAux, segSum, List.map_nil, List.sum_nil]
    split <;> simp
  | cons v t ih =>
    intro k i
    rw [colNZAux, segSum_append, ih (k + 1) i]
    have h1 : segSum (if v ≠ 0 then [(k, v)] else []) i = if k = i then v else 0 := by
      by_cases hv : v = 0
      · subst hv; simp [segSum]
      · simp only [hv, if_pos, ne_eq, not_false_eq_true, if_true, segSum,
          List.map_cons, List.map_nil, List.sum_cons, List.sum_nil, Int.add_zero]
    rw [h1]
    rcases Nat.lt_trichotomy i k with hik | hik | hik
    · have e1 : ¬ (k = i) := by omega
      have e2 : ¬ (k + 1 ≤ i) := by omega
      have e3 : ¬ (k ≤ i) := by omega
      simp [e1, e2, e3]
    · subst hik
      simp
    · have e1 : ¬ (k = i) := by omega
      have e2 : k + 1 ≤ i := by omega
      have e3 : k ≤ i := by omega
      have e4 : i - k = (i - (k + 1)) + 1 := by omega
      simp [e1, e2, e3, e4, List.getD_cons_succ]

theorem segSum_colNZ (col : List Int) (i : Nat) :
    segSum (colNZ col) i = col.getD i 0 := by
  have h := segSum_colNZAux col 0 i
  simpa [colNZ] using h

theorem entry_fromSegs (rows : Nat) (segs : List (List (Nat × Int))) (i j : Nat) :
    (fromSegs rows segs).entry i j = segSum (segs.getD j []) i := by
  by_cases hj : j < segs.length
  · have hs : (fromSegs rows segs).indptr.getD j 0 = prefLen segs j := by
      simpa [fromSegs] using scanl_len_getD segs 0 j (le_of_lt hj)
    have he : (fromSegs rows segs).indptr.getD (j + 1) 0 = prefLen segs (j + 1) := by
      simpa [fromSegs] using scanl_len_getD segs 0 (j + 1) hj
    have hlen : prefLen segs (j + 1) - prefLen segs j = (segs.getD j []).length := by
      rw [prefLen_succ segs j hj]; omega
    rw [Csc.entry, hs, he, hlen]
    have hshift : prefLen segs j = prefLen segs j + 0 := by omega
    rw [hshift, sum_range'_shift, ← List.range_eq_range']
    have hcong : (List.range (segs.getD j []).length).map
          (fun k => if (fromSegs rows segs).indices.getD (prefLen segs j + k) 0 = i
            then (fromSegs rows segs).data.getD (prefLen segs j + k) 0 else 0)
        = (List.range (segs.getD j []).length).map
          (fun k => if ((segs.getD j []).getD k (0, 0)).1 = i
            then ((segs.getD j []).getD k (0, 0)).2 else 0) := by
      apply List.map_congr_left
      intro k hk
      rw [List.mem_range] at hk
      have hidx : (fromSegs rows segs).indices.getD (prefLen segs j + k) 0
          = ((segs.getD j []).getD k (0, 0)).1 := by
        show ((segs.map (fun s => s.map Prod.fst)).flatten).getD _ 0 = _
        have hpl : prefLen segs j + k
            = prefLen (segs.map (fun s => s.map Prod.fst)) j + k := by
          rw [prefLen_map_len]
        rw [hpl, flatten_getD 0 (segs.map (fun s => s.map Prod.fst)) j k
          (by simpa using hj)
          (by rw [getD_map_lt (fun s => s.map Prod.fst) hj []]; simpa using hk)]
        rw [getD_map_lt (fun s => s.map Prod.fst) hj []]
        exact getD_map_lt Prod.fst hk (0, 0) 0
      have hdat : (fromSegs rows segs).data.getD (prefLen segs j + k) 0
          = ((segs.getD j []).getD k (0, 0)).2 := by
        show ((segs.map (fun s => s.map Prod.snd)).flatten).getD _ 0 = _
        have hpl : prefLen segs j + k
            = prefLen (segs.map (fun s => s.map Prod.snd)) j + k := by
          rw [prefLen_map_len]
        rw [hpl, flatten_getD 0 (segs.map (fun s => s.map Prod.snd)) j k
          (by simpa using hj)
          (by rw [getD_map_lt (fun s => s.map Prod.snd) hj []]; simpa using hk)]
        rw [getD_map_lt (fun s => s.map Prod.snd) hj []]
        exact getD_map_lt Prod.snd hk (0, 0) 0
      rw [hidx, hdat]
    rw [hcong]
    have hfin := map_getD_range (fun p : Nat × Int => if p.1 = i then p.2 else 0) (0, 0)
      (segs.getD j [])
    rw [hfin, segSum]
  · have hseg : segs.getD j [] = [] := getD_oob (by omega) []
    rw [hseg]
    rcases Nat.lt_or_ge j (segs.length + 1) with hj1 | hj1
    · have hjeq : j = segs.length := by omega
      subst hjeq
      have hs : (fromSegs rows segs).indptr.getD segs.length 0 = prefLen segs segs.length := by
        simpa [fromSegs] using scanl_len_getD segs 0 segs.length (le_refl _)
      have he : (fromSegs rows segs).indptr.getD (segs.length + 1) 0 = 0 := by
        simpa [fromSegs] using scanl_len_getD_oob segs 0 (segs.length + 1) (by omega)
      rw [Csc.entry, hs, he]
      simp [segSum]
    · have hs : (fromSegs rows segs).indptr.getD j 0 = 0 := by
        simpa [fromSegs] using scanl_len_getD_oob segs 0 j hj1
      have he : (fromSegs rows segs).indptr.getD (j + 1) 0 = 0 := by
        simpa [fromSegs] using scanl_len_getD_oob segs 0 (j + 1) (by omega)
      rw [Csc.entry, hs, he]
      simp [segSum]

theorem entry_denseToCsc (rows : Nat) (D : DenseCols) (i j : Nat) :
    (denseToCsc rows D).entry i j = denseEntry D i j := by
  rw [denseToCsc, entry_fromSegs]
  by_cases hj : j < D.length
  · rw [getD_map_lt colNZ hj []]
    exact segSum_colNZ (D.getD j []) i
  · have h1 : (D.map colNZ).getD j [] = [] := getD_oob (by simpa using hj) []
    have h2 : D.getD j [] = [] := getD_oob (by omega) []
    rw [h1, denseEntry, h2]
    simp [segSum]

theorem segSum_cscColPairs (c : Csc) (j i : Nat) :
    segSum (cscColPairs c j) i = c.entry i j := by
  rw [segSum, cscColPairs, Csc.entry, List.map_map]
  rfl

theorem cscEntry_selectCols (c : Csc) (idx : List Nat) (i t : Nat) (ht : t < idx.length) :
    (c.selectCols idx).entry i t = c.entry i (idx.getD t 0) := by
  rw [Csc.selectCols, entry_fromSegs, getD_map_lt (cscColPairs c) ht 0 []]
  exact segSum_cscColPairs c (idx.getD t 0) i

theorem entry_selectCols (m : SpMatrix) (idx : List Nat) (i t : Nat) (ht : t < idx.length) :
    (m.selectCols idx).entry i t = m.entry i (idx.getD t 0) := by
  cases m with
  | lil rows d =>
    show denseEntry (idx.map (fun j => d.getD j [])) i t = denseEntry d i (idx.getD t 0)
    rw [denseEntry, getD_map_lt (fun j => d.getD j []) ht 0 []]
    rfl
  | csc c => exact cscEntry_selectCols c idx i t ht

theorem entry_selectCols_oob (m : SpMatrix) (idx : List Nat) (i t : Nat)
    (ht : idx.length ≤ t) : (m.selectCols idx).entry i t = 0 := by
  cases m with
  | lil rows d =>
    show denseEntry (idx.map (fun j => d.getD j [])) i t = 0
    have h1 : (idx.map (fun j => d.getD j [])).getD t [] = [] :=
      getD_oob (by simpa using ht) []
    rw [denseEntry, h1]
    rfl
  | csc c =>
    show (c.selectCols idx).entry i t = 0
    have h1 : (idx.map (cscColPairs c)).getD t [] = [] :=
      getD_oob (by simpa using ht) []
    rw [Csc.selectCols, entry_fromSegs, h1]
    simp [segSum]

theorem entry_selectRows (m : SpMatrix) (idx : List Nat) (t j : Nat)
    (ht : t < idx.length) (hj : j < m.shape.2) :
    (m.selectRows idx).entry t j = m.entry (idx.getD t 0) j := by
  cases m with
  | lil rows d =>
    have hj' : j < d.length := by simpa [SpMatrix.shape] using hj
    show denseEntry (d.map (fun col => idx.map (fun i => col.getD i 0))) t j
        = denseEntry d (idx.getD t 0) j
    rw [denseEntry, getD_map_lt (fun col => idx.map (fun i => col.getD i 0)) hj' [] [],
      getD_map_lt (fun i => (d.getD j []).getD i 0) ht 0 0]
    rfl
  | csc c =>
    have hj' : j < c.shape.2 := hj
    show (c.selectRows idx).entry t j = c.entry (idx.getD t 0) j
    rw [Csc.selectRows, entry_fromSegs,
      getD_map_lt (fun j => colNZ (idx.map (fun i => c.entry i j)))
        (by simpa using hj') 0 [],
      getD_range hj' 0, segSum_colNZ,
      getD_map_lt (fun i => c.entry i j) ht 0 0]

theorem shape_selectCols (m : SpMatrix) (idx : List Nat) :
    (m.selectCols idx).shape = (m.shape.1, idx.length) := by
  cases m <;> simp [SpMatrix.selectCols, SpMatrix.shape, Csc.selectCols, fromSegs]

theorem shape_selectRows (m : SpMatrix) (idx : List Nat) :
    (m.selectRows idx).shape = (idx.length, m.shape.2) := by
  cases m <;> simp [SpMatrix.selectRows, SpMatrix.shape, Csc.selectRows, fromSegs]

theorem checkMono_cons_cons (a b : Nat) (t : List Nat) :
    checkMono (a :: b :: t) = (decide (a ≤ b) && checkMono (b :: t)) := rfl

theorem checkMono_singleton (a : Nat) : checkMono [a] = true := rfl

theorem checkMono_scanl {α : Type} :
    ∀ (l : List (List α)) (c : Nat),
      checkMono (List.scanl (fun a s => a + s.length) c l) = true := by
  intro l
  induction l with
  | nil => intro c; rfl
  | cons s t ih =>
    intro c
    rw [List.scanl_cons]
    cases t with
    | nil =>
      simp only [List.scanl_nil, List.singleton_append]
      rw [checkMono_cons_cons]
      simp [checkMono_singleton]
    | cons s2 t2 =>
      have h2 := ih (c + s.length)
      rw [List.scanl_cons] at h2 ⊢
      simp only [List.singleton_append] at h2 ⊢
      rw [checkMono_cons_cons, h2]
      simp

theorem checkMono_eq_false_iff :
    ∀ (l : List Nat), checkMono l = false ↔
      ∃ k, k + 1 < l.length ∧ l.getD (k + 1) 0 < l.getD k 0 := by
  intro l
  induction l with
  | nil =>
    constructor
    · intro h; exact absurd h (by simp [checkMono])
    · rintro ⟨k, hk, _⟩; simp at hk
  | cons a t ih =>
    cases t with
    | nil =>
      constructor
      · intro h; exact absurd h (by simp [checkMono])
      · rintro ⟨k, hk, _⟩; simp at hk
    | cons b t2 =>
      rw [checkMono_cons_cons]
      constructor
      · intro h
        by_cases hab : a ≤ b
        · have hfalse : checkMono (b :: t2) = false := by simpa [hab] using h
          obtain ⟨k, hk1, hk2⟩ := ih.mp hfalse
          refine ⟨k + 1, ?_, ?_⟩
          · simp only [List.length_cons] at hk1 ⊢; omega
          · simpa [List.getD_cons_succ] using hk2
        · refine ⟨0, by simp [List.length_cons], ?_⟩
          simp only [List.getD_cons_zero, List.getD_cons_succ]
          omega
      · rintro ⟨k, hk1, hk2⟩
        cases k with
        | zero =>
          have hab : ¬ (a ≤ b) := by
            simp only [List.getD_cons_zero, List.getD_cons_succ] at hk2
            omega
          simp [hab]
        | succ k' =>
          have hfalse : checkMono (b :: t2) = false := by
            refine ih.mpr ⟨k', ?_, ?_⟩
            · simp only [List.length_cons] at hk1 ⊢; omega
            · simpa [List.getD_cons_succ] using hk2
          simp [hfalse]

theorem load_not_version_error (g : H5Group) (e : MatrixError)
    (he : e = MatrixError.obsoleteVersion ∨ e = MatrixError.unsupportedVersion) :
    CountMatrix.load g ≠ .error e := by
  rw [CountMatrix.load]
  rcases he with h | h <;> subst h <;> split <;> simp

/-- C3: for a container whose file type is the reserved matrix tag,
`load_h5_file` fails with the newer-than-supported error when the version
attribute exceeds 2, fails with the no-longer-supported error when it is
below 2, treats an absent version as version 1 and rejects it as obsolete,
and proceeds to load the matrix group exactly when the version equals 2. -/
theorem c3_version_gate (f : H5File) (hft : f.filetype = some MATRIX_H5_FILETYPE) :
    (∀ v, f.version = some v → MATRIX_H5_VERSION < v →
        CountMatrix.load_h5_file f = .error .unsupportedVersion)
    ∧ (∀ v, f.version = some v → v < MATRIX_H5_VERSION →
        CountMatrix.load_h5_file f = .error .obsoleteVersion)
    ∧ (f.version = none → CountMatrix.load_h5_file f = .error .obsoleteVersion)
    ∧ (∀ g, f.matrix = some g →
        (CountMatrix.load_h5_file f = CountMatrix.load g ↔
          f.version = some MATRIX_H5_VERSION)) := by
  refine ⟨?_, ?_, ?_, ?_⟩
  · intro v hv hlt
    simp [CountMatrix.load_h5_file, hft, hv, hlt]
  · intro v hv hlt
    have hnot : ¬ (MATRIX_H5_VERSION < v) := by omega
    simp [CountMatrix.load_h5_file, hft, hv, hlt, hnot]
  · intro hv
    simp [CountMatrix.load_h5_file, hft, hv, MATRIX_H5_VERSION]
  · intro g hg
    constructor
    · intro heq
      cases hv : f.version with
      | none =>
        exfalso
        simp [CountMatrix.load_h5_file, hft, hv, MATRIX_H5_VERSION] at heq
        exact load_not_version_error g _ (Or.inl rfl) heq.symm
      | some v =>
        rcases lt_trichotomy v MATRIX_H5_VERSION with hlt | hlt | hlt
        · exfalso
          have hnot : ¬ (MATRIX_H5_VERSION < v) := by omega
          simp [CountMatrix.load_h5_file, hft, hv, hlt, hnot] at heq
          exact load_not_version_error g _ (Or.inl rfl) heq.symm
        · rw [hlt]
        · exfalso
          simp [CountMatrix.load_h5_file, hft, hv, hlt] at heq
          exact load_not_version_error g _ (Or.inr rfl) heq.symm
    · intro hv
      have hnot : ¬ (MATRIX_H5_VERSION < MATRIX_H5_VERSION) := by omega
      simp [CountMatrix.load_h5_file, hft, hv, hg, hnot]

/-- Witness for C3 at concrete files over the group of `MEx1`: version 3 is
rejected as newer, version 1 and an absent version as obsolete, and version 2
proceeds to `load`. -/
theorem c3_version_gate_witness :
    CountMatrix.load_h5_file ⟨some MATRIX_H5_FILETYPE, some 3, some gEx1⟩
        = .error .unsupportedVersion
    ∧ CountMatrix.load_h5_file ⟨some MATRIX_H5_FILETYPE, some 1, some gEx1⟩
        = .error .obsoleteVersion
    ∧ CountMatrix.load_h5_file ⟨some MATRIX_H5_FILETYPE, none, some gEx1⟩
        = .error .obsoleteVersion
    ∧ CountMatrix.load_h5_file ⟨some MATRIX_H5_FILETYPE, some 2, some gEx1⟩
        = CountMatrix.load gEx1 :=
  ⟨(c3_version_gate ⟨some MATRIX_H5_FILETYPE, some 3, some gEx1⟩ rfl).1 3 rfl (by decide),
   (c3_version_gate ⟨some MATRIX_H5_FILETYPE, some 1, some gEx1⟩ rfl).2.1 1 rfl (by decide),
   (c3_version_gate ⟨some MATRIX_H5_FILETYPE, none, some gEx1⟩ rfl).2.2.1 rfl,
   ((c3_version_gate ⟨some MATRIX_H5_FILETYPE, some 2, some gEx1⟩ rfl).2.2.2 gEx1 rfl).mpr rfl⟩

/-- C4: `load` fails with the corrupt-data error exactly when the stored
`indptr` is not monotonically non-decreasing; when it is monotone, `load`
returns the CSC matrix rebuilt from the stored arrays. -/
theorem c4_corrupt_indptr (g : H5Group) :
    ((∃ k, k + 1 < g.indptr.length ∧ g.indptr.getD (k + 1) 0 < g.indptr.getD k 0) →
      CountMatrix.load g = .error .corruptData)
    ∧ ((∀ k, k + 1 < g.indptr.length → g.indptr.getD k 0 ≤ g.indptr.getD (k + 1) 0) →
      CountMatrix.load g = .ok (CountMatrix.mk g.feature_ids g.bcs
        (.csc (Csc.mk g.data g.indices g.indptr g.shape)))) := by
  constructor
  · intro hex
    have hfalse : checkMono g.indptr = false := (checkMono_eq_false_iff g.indptr).mpr hex
    rw [CountMatrix.load, hfalse]
    simp
  · intro hall
    have htrue : checkMono g.indptr = true := by
      cases hc : checkMono g.indptr
      · obtain ⟨k, hk1, hk2⟩ := (checkMono_eq_false_iff g.indptr).mp hc
        exact absurd (hall k hk1) (by omega)
      · rfl
    rw [CountMatrix.load, htrue]
    simp

/-- Witness for C4: the corrupted concrete group `gBad` (indptr `[0, 1, 0]`)
is rejected, and the monotone concrete group `gEx2` loads. -/
theorem c4_corrupt_indptr_witness :
    CountMatrix.load gBad = .error .corruptData
    ∧ CountMatrix.load gEx2 = .ok (CountMatrix.mk gEx2.feature_ids gEx2.bcs
        (.csc (Csc.mk gEx2.data gEx2.indices gEx2.indptr gEx2.shape))) := by
  constructor
  · exact (c4_corrupt_indptr gBad).1 ⟨1, by decide, by decide⟩
  · refine (c4_corrupt_indptr gEx2).2 ?_
    intro k hk
    have hlen : gEx2.indptr.length = 3 := by decide
    rw [hlen] at hk
    have hk2 : k = 0 ∨ k = 1 := by omega
    rcases hk2 with h0 | h0 <;> subst h0 <;> decide

/-- C7 corrected: the bounds assertion in `load_chunk` accepts exactly the
ranges with `0 ≤ col_start < shape[1]` and `0 ≤ col_end ≤ shape[1]`; it does
not compare `col_start` with `col_end`. -/
theorem c7_load_chunk_bounds (g : H5Group) (col_start col_end : Int) :
    (CountMatrix.load_chunk g col_start col_end = .error .bounds ↔
      ¬ (0 ≤ col_start ∧ col_start < (g.shape.2 : Int) ∧
         0 ≤ col_end ∧ col_end ≤ (g.shape.2 : Int)))
    ∧ ((∃ M, CountMatrix.load_chunk g col_start col_end = .ok M) ↔
      (0 ≤ col_start ∧ col_start < (g.shape.2 : Int) ∧
       0 ≤ col_end ∧ col_end ≤ (g.shape.2 : Int))) := by
  rw [CountMatrix.load_chunk]
  split
  next h =>
    constructor
    · constructor
      · intro hc
        simp at hc
      · intro hc
        exact absurd h hc
    · exact ⟨fun _ => h, fun _ => ⟨_, rfl⟩⟩
  next h =>
    constructor
    · exact ⟨fun _ => h, fun _ => rfl⟩
    · constructor
      · rintro ⟨M, hM⟩
        simp at hM
      · intro hc
        exact absurd hc h

/-- Counterexample for C7: on the persisted group of `MEx1` (one barcode
column), the range `[1, 1)` satisfies the claim's condition
`0 ≤ col_start ≤ col_end ≤ bcs_dim` yet is rejected with the bounds error;
and on the persisted group of `MEx2` (two columns), the range `[1, 0)`
violates `col_start ≤ col_end` yet is not rejected with a bounds error. -/
theorem c7_counterexample :
    ((0 : Int) ≤ 1 ∧ (1 : Int) ≤ 1 ∧ (1 : Int) ≤ ((gEx1.shape.2 : Nat) : Int))
    ∧ CountMatrix.load_chunk gEx1 1 1 = .error .bounds
    ∧ ¬ ((1 : Int) ≤ 0)
    ∧ CountMatrix.load_chunk gEx2 1 0 ≠ .error .bounds := by decide

/-- Counterexample for C5: on the concrete 2-by-2 matrix `MEx5`,
`select_barcodes([1, 1])` produces two axis positions for the single listed
index 1 (no dedupe), and `select_barcodes([1, 0])` keeps the input order
`b1, b0` instead of the ascending original order `b0, b1`; `select_features`
behaves the same way. -/
theorem c5_counterexample :
    (MEx5.select_barcodes [1, 1]).bcs = ["b1", "b1"]
    ∧ (MEx5.select_barcodes [1, 1]).bcs_dim ≠ 1
    ∧ (MEx5.select_barcodes [1, 0]).bcs = ["b1", "b0"]
    ∧ (MEx5.select_barcodes [1, 0]).bcs ≠ ["b0", "b1"]
    ∧ (MEx5.select_features [1, 0]).feature_ids = ["f1", "f0"]
    ∧ (MEx5.select_features [1, 0]).feature_ids ≠ ["f0", "f1"] := by decide

/-- C5 amended: `CountMatrix.select_barcodes` / `select_features` keep the
input index list's order and multiplicity: axis position `t` of the result is
original position `indices[t]` (one axis position per occurrence, duplicates
repeated, input order preserved, no reordering to ascending original order;
the dedupe-and-reorder mask behaviour belongs to the `CountMatrixView`
selectors, not to these). -/
theorem c5_select_order_multiplicity (M : CountMatrix) (fIdx bIdx : List Nat)
    (hb : ∀ i ∈ bIdx, i < M.bcs_dim) (hf : ∀ i ∈ fIdx, i < M.features_dim) :
    (M.select_barcodes bIdx).bcs = bIdx.map (fun i => M.bcs.getD i dfltStr)
    ∧ (M.select_barcodes bIdx).bcs_dim = bIdx.length
    ∧ (∀ i t, t < bIdx.length →
        (M.select_barcodes bIdx).m.entry i t = M.m.entry i (bIdx.getD t 0))
    ∧ (M.select_features fIdx).feature_ids
        = fIdx.map (fun i => M.feature_ids.getD i dfltStr)
    ∧ (M.select_features fIdx).features_dim = fIdx.length
    ∧ (∀ t j, t < fIdx.length → j < M.m.shape.2 →
        (M.select_features fIdx).m.entry t j = M.m.entry (fIdx.getD t 0) j) := by
  refine ⟨rfl, by simp [CountMatrix.select_barcodes, CountMatrix.bcs_dim], ?_, rfl,
    by simp [CountMatrix.select_features, CountMatrix.features_dim], ?_⟩
  · intro i t ht
    exact entry_selectCols M.m bIdx i t ht
  · intro t j ht hj
    exact entry_selectRows M.m fIdx t j ht hj

/-- Witness for C5 amended at `MEx5` with index list `[1, 0]` on both axes. -/
theorem c5_select_order_multiplicity_witness :
    (∀ i ∈ [1, 0], i < MEx5.bcs_dim) ∧ (∀ i ∈ [1, 0], i < MEx5.features_dim) ∧
    ((MEx5.select_barcodes [1, 0]).bcs = [1, 0].map (fun i => MEx5.bcs.getD i dfltStr)
    ∧ (MEx5.select_barcodes [1, 0]).bcs_dim = [1, 0].length
    ∧ (∀ i t, t < [1, 0].length →
        (MEx5.select_barcodes [1, 0]).m.entry i t = MEx5.m.entry i ([1, 0].getD t 0))
    ∧ (MEx5.select_features [1, 0]).feature_ids
        = [1, 0].map (fun i => MEx5.feature_ids.getD i dfltStr)
    ∧ (MEx5.select_features [1, 0]).features_dim = [1, 0].length
    ∧ (∀ t j, t < [1, 0].length → j < MEx5.m.shape.2 →
        (MEx5.select_features [1, 0]).m.entry t j = MEx5.m.entry ([1, 0].getD t 0) j)) :=
  ⟨by decide, by decide,
    c5_select_order_multiplicity MEx5 [1, 0] [1, 0] (by decide) (by decide)⟩

theorem mapM_eq_map_getD {α : Type} (g : α → Option Nat) :
    ∀ (l : List α), (∀ x ∈ l, (g x).isSome) →
      l.mapM g = some (l.map (fun x => (g x).getD 0)) := by
  intro l
  induction l with
  | nil => intro _; rfl
  | cons a t ih =>
    intro h
    have ha : (g a).isSome := h a (by simp)
    obtain ⟨v, hv⟩ := Option.isSome_iff_exists.mp ha
    have ht := ih (fun x hx => h x (by simp [hx]))
    rw [List.mapM_cons, hv, ht]
    simp [hv]

theorem insertionSort_eq_of_perm {l₁ l₂ : List Nat} (h : l₁.Perm l₂) :
    l₁.insertionSort (· ≤ ·) = l₂.insertionSort (· ≤ ·) := by
  have hp : (l₁.insertionSort (· ≤ ·)).Perm (l₂.insertionSort (· ≤ ·)) :=
    (List.perm_insertionSort _ l₁).trans (h.trans (List.perm_insertionSort _ l₂).symm)
  have h1 : List.Sorted (· ≤ ·) (l₁.insertionSort (· ≤ ·)) :=
    List.sorted_insertionSort _ _
  have h2 : List.Sorted (· ≤ ·) (l₂.insertionSort (· ≤ ·)) :=
    List.sorted_insertionSort _ _
  exact List.eq_of_perm_of_sorted hp h1 h2

/-- C10: when every queried barcode (respectively feature id) is present,
`bcs_to_ints` (respectively `feature_ids_to_ints`) succeeds and returns the
resolved integer indices sorted ascending; the result is invariant under any
permutation of the input list, so the input order is never reflected. -/
theorem c10_batch_lookups_sorted (M : CountMatrix) (fids bcsq : List String)
    (hf : ∀ s ∈ fids, (M.feature_id_to_int s).isSome)
    (hb : ∀ s ∈ bcsq, (M.bc_to_int s).isSome) :
    ∃ outF outB,
      M.feature_ids_to_ints fids = some outF
      ∧ M.bcs_to_ints bcsq = some outB
      ∧ outF.Sorted (· ≤ ·) ∧ outB.Sorted (· ≤ ·)
      ∧ (∀ l, l.Perm fids → M.feature_ids_to_ints l = some outF)
      ∧ (∀ l, l.Perm bcsq → M.bcs_to_ints l = some outB) := by
  refine ⟨(fids.map (fun x => (M.feature_id_to_int x).getD 0)).insertionSort (· ≤ ·),
    (bcsq.map (fun x => (M.bc_to_int x).getD 0)).insertionSort (· ≤ ·), ?_, ?_, ?_, ?_, ?_, ?_⟩
  · rw [CountMatrix.feature_ids_to_ints, mapM_eq_map_getD _ fids hf]
    rfl
  · rw [CountMatrix.bcs_to_ints, mapM_eq_map_getD _ bcsq hb]
    rfl
  · exact List.sorted_insertionSort _ _
  · exact List.sorted_insertionSort _ _
  · intro l hl
    have hl' : ∀ s ∈ l, (M.feature_id_to_int s).isSome :=
      fun s hs => hf s (hl.mem_iff.mp hs)
    rw [CountMatrix.feature_ids_to_ints, mapM_eq_map_getD _ l hl']
    simp only [Option.map_some']
    congr 1
    exact insertionSort_eq_of_perm (hl.map _)
  · intro l hl
    have hl' : ∀ s ∈ l, (M.bc_to_int s).isSome :=
      fun s hs => hb s (hl.mem_iff.mp hs)
    rw [CountMatrix.bcs_to_ints, mapM_eq_map_getD _ l hl']
    simp only [Option.map_some']
    congr 1
    exact insertionSort_eq_of_perm (hl.map _)

/-- Witness for C10 at `MEx5` with reversed query lists. -/
theorem c10_batch_lookups_sorted_witness :
    (∀ s ∈ ["f1", "f0"], (MEx5.feature_id_to_int s).isSome)
    ∧ (∀ s ∈ ["b1", "b0"], (MEx5.bc_to_int s).isSome)
    ∧ ∃ outF outB,
      MEx5.feature_ids_to_ints ["f1", "f0"] = some outF
      ∧ MEx5.bcs_to_ints ["b1", "b0"] = some outB
      ∧ outF.Sorted (· ≤ ·) ∧ outB.Sorted (· ≤ ·)
      ∧ (∀ l, l.Perm ["f1", "f0"] → MEx5.feature_ids_to_ints l = some outF)
      ∧ (∀ l, l.Perm ["b1", "b0"] → MEx5.bcs_to_ints l = some outB) :=
  ⟨by decide, by decide,
    c10_batch_lookups_sorted MEx5 ["f1", "f0"] ["b1", "b0"] (by decide) (by decide)⟩

/-- Counterexample for C8: the claim quantifies over every matrix with
`bcs_dim ≥ 1`, but on the one-barcode matrix `MEx1` the squeezed per-barcode
totals are a 0-d array, `sorted(reads_per_bc)` raises `TypeError`, and
`get_top_bcs` produces no index set at all - not the claimed tie-set
(which would be `[0]` here). -/
theorem c8_counterexample :
    MEx1.bcs_dim = 1 ∧ 1 ≤ MEx1.bcs_dim
    ∧ MEx1.get_counts_per_bc = .scalar 5
    ∧ MEx1.get_top_bcs 1 = none
    ∧ MEx1.get_top_bcs 1 ≠ some [0] := by decide

/-- C8 amended: for a matrix with at least two barcodes (and the stored
shape consistent with the barcode axis), `get_top_bcs(cutoff)` returns
exactly the barcode indices whose per-barcode total is at least the c-th
largest total, where `c` is `cutoff` clamped to `[1, bcs_dim]`; ties at the
c-th largest are all included, so the result can exceed `cutoff` indices.
With exactly one barcode the call instead fails: `np.squeeze` collapses the
totals to a 0-d array that `sorted` cannot iterate (see the
counterexample). -/
theorem c8_get_top_bcs (M : CountMatrix) (cutoff : Int)
    (hwf : M.m.shape.2 = M.bcs_dim) (hn : 2 ≤ M.bcs_dim) :
    ∃ out, M.get_top_bcs cutoff = some out
      ∧ ∀ j, j ∈ out ↔
        (j < M.bcs_dim
          ∧ kthLargest M.m.colSums ((max 1 (min cutoff (M.bcs_dim : Int))).toNat)
              ≤ M.m.colSums.getD j 0) := by
  have hlen : M.m.colSums.length = M.bcs_dim := by
    simp [SpMatrix.colSums, hwf]
  obtain ⟨x, y, t, hxyt⟩ : ∃ x y t, M.m.colSums = x :: y :: t := by
    rcases hl : M.m.colSums with _ | ⟨x, l1⟩
    · rw [hl] at hlen
      simp at hlen
      omega
    · rcases l1 with _ | ⟨y, t⟩
      · rw [hl] at hlen
        simp at hlen
        omega
      · exact ⟨x, y, t, rfl⟩
  have hcounts : M.get_counts_per_bc = .arr M.m.colSums := by
    show sum_sparse_matrix_axis0 M.m = .arr M.m.colSums
    unfold sum_sparse_matrix_axis0
    rw [hxyt]
  have hempty : M.m.colSums.isEmpty = false := by
    rw [hxyt]
    rfl
  have hidx : (max 0 (min ((M.m.colSums.length : Int)) cutoff - 1)).toNat
      = (max 1 (min cutoff ((M.bcs_dim : Int)))).toNat - 1 := by
    rw [hlen]
    omega
  refine ⟨(List.range M.m.colSums.length).filter
      (fun j => (sortDesc M.m.colSums).getD
        ((max 0 (min ((M.m.colSums.length : Int)) cutoff - 1)).toNat) 0
        ≤ M.m.colSums.getD j 0), ?_, ?_⟩
  · unfold CountMatrix.get_top_bcs
    rw [hcounts]
    dsimp only
    rw [hempty]
    simp
  · intro j
    rw [List.mem_filter, List.mem_range, decide_eq_true_eq, hidx, hlen, kthLargest]

/-- Witness for C8 amended at `MEx5` (two barcodes, totals `[1, 2]`) with
cutoff 1. -/
theorem c8_get_top_bcs_witness :
    MEx5.m.shape.2 = MEx5.bcs_dim ∧ 2 ≤ MEx5.bcs_dim ∧
    ∃ out, MEx5.get_top_bcs 1 = some out
      ∧ ∀ j, j ∈ out ↔
        (j < MEx5.bcs_dim
          ∧ kthLargest MEx5.m.colSums ((max 1 (min 1 (MEx5.bcs_dim : Int))).toNat)
              ≤ MEx5.m.colSums.getD j 0) :=
  ⟨by decide, by decide, c8_get_top_bcs MEx5 1 (by decide) (by decide)⟩

theorem sumRestCounts_render :
    ∀ (specs : List MtxSpec) (acc : Nat),
      (∀ s ∈ specs, parseDims s.dline = some (s.rows, s.cols, s.nnz)) →
      sumRestCounts (specs.map MtxSpec.render) acc
        = some (acc + (specs.map MtxSpec.nnz).sum) := by
  intro specs
  induction specs with
  | nil => intro acc _; simp [sumRestCounts]
  | cons s t ih =>
    intro acc h
    have hs := h s (by simp)
    have hrender : (MtxSpec.render s).getD 2 dfltStr = s.dline := rfl
    simp only [List.map_cons, sumRestCounts, hrender, hs]
    rw [ih (acc + s.nnz) (fun x hx => h x (by simp [hx]))]
    simp only [List.map_cons, List.sum_cons]
    congr 1
    omega

/-- C9: for a non-empty list of text-interchange files that share row and
column dimensions, each being two comment lines, a dimensions line
`rows cols nnz`, and `nnz` data lines, `concatenate_mtx` outputs the first
file's two comment lines, a dimensions line carrying the first file's rows
and cols with the summed nonzero counts, then every file's data lines in the
given file order, each file's lines in their original order. -/
theorem c9_concatenate_mtx (s0 : MtxSpec) (rest : List MtxSpec)
    (hparse : ∀ s ∈ s0 :: rest, parseDims s.dline = some (s.rows, s.cols, s.nnz))
    (hbody : ∀ s ∈ s0 :: rest, s.body.length = s.nnz)
    (hdims : ∀ s ∈ rest, s.rows = s0.rows ∧ s.cols = s0.cols) :
    concatenate_mtx ((s0 :: rest).map MtxSpec.render)
      = some (s0.h1 :: s0.h2 ::
          joinDims s0.rows s0.cols (((s0 :: rest).map MtxSpec.nnz).sum) ::
          ((s0 :: rest).map MtxSpec.body).flatten) := by
  have hs0 := hparse s0 (by simp)
  simp only [List.map_cons, concatenate_mtx]
  rw [show (MtxSpec.render s0).getD 2 dfltStr = s0.dline from rfl, hs0]
  dsimp only
  rw [sumRestCounts_render rest s0.nnz (fun s hs => hparse s (by simp [hs]))]
  dsimp only
  simp only [List.map_cons, List.sum_cons]
  have hdrop : ∀ (l : List MtxSpec),
      (l.map MtxSpec.render).map (fun f => f.drop 3) = l.map MtxSpec.body := by
    intro l
    rw [List.map_map]
    rfl
  have hget0 : (MtxSpec.render s0).getD 0 dfltStr = s0.h1 := rfl
  have hget1 : (MtxSpec.render s0).getD 1 dfltStr = s0.h2 := rfl
  simp only [hget0, hget1, List.map_cons]
  rw [show (MtxSpec.render s0).drop 3 = s0.body from rfl, hdrop rest]

/-- Witness for C9 on the claim's concrete scenario: two files with header
"3 2 2" and two data lines each concatenate to header "3 2 4" followed by
all four data lines in per-file order. -/
theorem c9_concatenate_mtx_witness :
    (∀ s ∈ mtxA :: [mtxB], parseDims s.dline = some (s.rows, s.cols, s.nnz))
    ∧ concatenate_mtx ((mtxA :: [mtxB]).map MtxSpec.render)
      = some (mtxA.h1 :: mtxA.h2 ::
          joinDims mtxA.rows mtxA.cols (((mtxA :: [mtxB]).map MtxSpec.nnz).sum) ::
          ((mtxA :: [mtxB]).map MtxSpec.body).flatten)
    ∧ concatenate_mtx [mtxA.render, mtxB.render]
      = some ["%%MatrixMarket matrix coordinate integer general", "%", "3 2 4",
              "1 1 5", "2 2 2", "1 2 1", "3 1 4"] :=
  ⟨by decide,
   c9_concatenate_mtx mtxA [mtxB] (by decide) (by decide) (by decide),
   by decide⟩

theorem applyAdds_lil :
    ∀ (adds : List (String × String × Int)) (ids bcs : List String) (r : Nat)
      (D : DenseCols) (M : CountMatrix),
      applyAdds adds (CountMatrix.mk ids bcs (.lil r D)) = some M →
      ∃ D', M = CountMatrix.mk ids bcs (.lil r D') := by
  intro adds
  induction adds with
  | nil =>
    intro ids bcs r D M h
    refine ⟨D, ?_⟩
    simpa [applyAdds] using h.symm
  | cons p t ih =>
    intro ids bcs r D M h
    obtain ⟨fid, bc, v⟩ := p
    simp only [applyAdds] at h
    cases hadd : (CountMatrix.mk ids bcs (.lil r D)).add fid bc v with
    | none => rw [hadd] at h; simp at h
    | some M1 =>
      rw [hadd] at h
      simp only [Option.some_bind] at h
      have hM1 : ∃ D1, M1 = CountMatrix.mk ids bcs (.lil r D1) := by
        rw [CountMatrix.add] at hadd
        split at hadd
        · simp only [Option.some.injEq] at hadd
          exact ⟨_, hadd.symm⟩
        · simp at hadd
      obtain ⟨D1, hD1⟩ := hM1
      subst hD1
      exact ih ids bcs r D1 M h

theorem load_save_lil (ids bcs : List String) (r : Nat) (D : DenseCols) :
    CountMatrix.load_h5_file (CountMatrix.mk ids bcs (.lil r D)).save_h5_file
      = .ok (CountMatrix.mk ids bcs (.csc (denseToCsc r D))) := by
  have hmono : checkMono (denseToCsc r D).indptr = true := by
    simpa [denseToCsc, fromSegs] using checkMono_scanl (D.map colNZ) 0
  simp [CountMatrix.load_h5_file, CountMatrix.save_h5_file, CountMatrix.save_h5_group,
    SpMatrix.tocsc, CountMatrix.load, hmono, MATRIX_H5_VERSION]

/-- C1: any matrix built from a catalog and barcode list by `empty()` and a
sequence of `add` calls, saved with `save_h5_file` and loaded back with
`load_h5_file`, yields a matrix with the same shape, the same axes, the same
set of nonzero coordinates, and the same value at every coordinate.  (The
embedding stores the built matrix canonically, so the stored arrays - and
hence this result - do not depend on the order in which the adds arrived.) -/
theorem c1_round_trip (ids bcs : List String) (adds : List (String × String × Int))
    (M : CountMatrix)
    (h : applyAdds adds (CountMatrix.empty ids bcs) = some M) :
    ∃ M', CountMatrix.load_h5_file M.save_h5_file = .ok M'
      ∧ M'.m.shape = M.m.shape
      ∧ M'.feature_ids = M.feature_ids ∧ M'.bcs = M.bcs
      ∧ (∀ i j, M'.m.entry i j ≠ 0 ↔ M.m.entry i j ≠ 0)
      ∧ (∀ i j, M'.m.entry i j = M.m.entry i j) := by
  obtain ⟨D, hM⟩ := applyAdds_lil adds ids bcs ids.length
    (List.replicate bcs.length (List.replicate ids.length 0)) M
    (by simpa [CountMatrix.empty] using h)
  subst hM
  have hentry : ∀ i j,
      (SpMatrix.csc (denseToCsc ids.length D)).entry i j
        = (SpMatrix.lil ids.length D).entry i j := by
    intro i j
    exact entry_denseToCsc ids.length D i j
  refine ⟨CountMatrix.mk ids bcs (.csc (denseToCsc ids.length D)),
    load_save_lil ids bcs ids.length D, ?_, rfl, rfl,
    fun i j => by rw [hentry i j], hentry⟩
  simp [denseToCsc, fromSegs, SpMatrix.shape]

/-- Witness for C1 on the spec's concrete scenario. -/
theorem c1_round_trip_witness :
    applyAdds [("g1", "AAAA-1", 5), ("g2", "CCCC-1", 2)]
        (CountMatrix.empty ["g1", "g2", "g3"] ["AAAA-1", "CCCC-1"]) = some MC1
    ∧ ∃ M', CountMatrix.load_h5_file MC1.save_h5_file = .ok M'
      ∧ M'.m.shape = MC1.m.shape
      ∧ M'.feature_ids = MC1.feature_ids ∧ M'.bcs = MC1.bcs
      ∧ (∀ i j, M'.m.entry i j ≠ 0 ↔ MC1.m.entry i j ≠ 0)
      ∧ (∀ i j, M'.m.entry i j = MC1.m.entry i j) :=
  ⟨by decide,
   c1_round_trip ["g1", "g2", "g3"] ["AAAA-1", "CCCC-1"]
     [("g1", "AAAA-1", 5), ("g2", "CCCC-1", 2)] MC1 (by decide)⟩

theorem maskFromIndices_length (n : Nat) (idx : List Nat) :
    (maskFromIndices n idx).length = n := by
  simp [maskFromIndices]

theorem maskFromIndices_getD (idx : List Nat) {i n : Nat} (h : i < n) :
    (maskFromIndices n idx).getD i false = decide (i ∈ idx) := by
  rw [maskFromIndices, getD_map_lt (fun i => decide (i ∈ idx)) (by simpa using h) 0 false,
    getD_range h]

theorem sum_map_ite_single (g : Nat → Int) :
    ∀ (n a : Nat), a < n →
      ((List.range n).map (fun i => if i = a then g i else 0)).sum = g a := by
  intro n
  induction n with
  | zero => intro a ha; omega
  | succ m ih =>
    intro a ha
    rw [List.range_succ]
    simp only [List.map_append, List.sum_append, List.map_cons, List.map_nil,
      List.sum_cons, List.sum_nil, Int.add_zero]
    by_cases hm : a = m
    · subst hm
      have hcong : (List.range a).map (fun i => if i = a then g i else 0)
          = (List.range a).map (fun _ => (0 : Int)) := by
        apply List.map_congr_left
        intro i hi
        rw [List.mem_range] at hi
        simp [Nat.ne_of_lt hi]
      rw [hcong]
      simp
    · have ha' : a < m := by omega
      rw [ih a ha']
      have hne : ¬ (m = a) := by omega
      simp [hne]

theorem sum_ite_mem_range (g : Nat → Int) :
    ∀ (l : List Nat) (n : Nat), l.Nodup → (∀ x ∈ l, x < n) →
      ((List.range n).map (fun i => if i ∈ l then g i else 0)).sum = (l.map g).sum := by
  intro l
  induction l with
  | nil => intro n _ _; simp
  | cons a t ih =>
    intro n hnd hlt
    have hat : a ∉ t := by
      rw [List.nodup_cons] at hnd
      exact hnd.1
    have ht : t.Nodup := by
      rw [List.nodup_cons] at hnd
      exact hnd.2
    have hpt : ∀ i, (if i ∈ a :: t then g i else 0)
        = (if i = a then g i else 0) + (if i ∈ t then g i else 0) := by
      intro i
      by_cases h1 : i = a
      · subst h1
        simp [hat]
      · by_cases h2 : i ∈ t <;> simp [h1, h2, List.mem_cons]
    calc ((List.range n).map (fun i => if i ∈ a :: t then g i else 0)).sum
        = ((List.range n).map (fun i =>
            (if i = a then g i else 0) + (if i ∈ t then g i else 0))).sum := by
          exact congrArg _ (List.map_congr_left (fun i _ => hpt i))
      _ = ((List.range n).map (fun i => if i = a then g i else 0)).sum
          + ((List.range n).map (fun i => if i ∈ t then g i else 0)).sum := by
          rw [List.sum_map_add]
      _ = g a + (t.map g).sum := by
          rw [sum_map_ite_single g n a (hlt a (by simp)),
            ih n ht (fun x hx => hlt x (by simp [hx]))]
      _ = ((a :: t).map g).sum := by simp

/-- C6: for duplicate-free in-range index subsets `F` (features) and `B`
(barcodes), the scalar sum over the masked view built from `F` and `B`
equals the scalar sum of the materialized submatrix
`select_features(F).select_barcodes(B)`. -/
theorem c6_view_sum_eq_materialized (M : CountMatrix) (F B : List Nat)
    (hFnd : F.Nodup) (hBnd : B.Nodup)
    (hF : ∀ i ∈ F, i < M.features_dim) (hB : ∀ j ∈ B, j < M.bcs_dim)
    (hwf : M.m.shape = (M.features_dim, M.bcs_dim)) :
    (CountMatrixView.ofIndices M F B).sum
      = ((M.select_features F).select_barcodes B).m.sumAll := by
  have hL : (CountMatrixView.ofIndices M F B).sum
      = ((List.range M.features_dim).map (fun i =>
          ((List.range M.bcs_dim).map (fun j =>
            if i ∈ F ∧ j ∈ B then M.m.entry i j else 0)).sum)).sum := by
    show sum_masked M.m (maskFromIndices M.features_dim F)
        (maskFromIndices M.bcs_dim B) = _
    rw [sum_masked, maskFromIndices_length, maskFromIndices_length]
    refine congrArg _ (List.map_congr_left ?_)
    intro i hi
    refine congrArg _ (List.map_congr_left ?_)
    intro j hj
    rw [List.mem_range] at hi hj
    rw [maskFromIndices_getD F hi, maskFromIndices_getD B hj]
    by_cases h1 : i ∈ F <;> by_cases h2 : j ∈ B <;> simp [h1, h2]
  have inner_eq : ∀ i, i ∈ F →
      ((List.range M.bcs_dim).map (fun j =>
        if i ∈ F ∧ j ∈ B then M.m.entry i j else 0)).sum
        = (B.map (fun bj => M.m.entry i bj)).sum := by
    intro i hiF
    have hcong : (List.range M.bcs_dim).map (fun j =>
          if i ∈ F ∧ j ∈ B then M.m.entry i j else 0)
        = (List.range M.bcs_dim).map (fun j => if j ∈ B then M.m.entry i j else 0) := by
      refine List.map_congr_left ?_
      intro j _
      by_cases hjB : j ∈ B <;> simp [hiF, hjB]
    rw [hcong, sum_ite_mem_range (fun bj => M.m.entry i bj) B M.bcs_dim hBnd hB]
  have inner_zero : ∀ i, i ∉ F →
      ((List.range M.bcs_dim).map (fun j =>
        if i ∈ F ∧ j ∈ B then M.m.entry i j else 0)).sum = 0 := by
    intro i hiF
    have hcong : (List.range M.bcs_dim).map (fun j =>
          if i ∈ F ∧ j ∈ B then M.m.entry i j else 0)
        = (List.range M.bcs_dim).map (fun _ => (0 : Int)) := by
      refine List.map_congr_left ?_
      intro j _
      simp [hiF]
    rw [hcong]
    simp
  have hL2 : (CountMatrixView.ofIndices M F B).sum
      = (F.map (fun fi => (B.map (fun bj => M.m.entry fi bj)).sum)).sum := by
    rw [hL]
    have hcong : (List.range M.features_dim).map (fun i =>
          ((List.range M.bcs_dim).map (fun j =>
            if i ∈ F ∧ j ∈ B then M.m.entry i j else 0)).sum)
        = (List.range M.features_dim).map (fun i =>
          if i ∈ F then (B.map (fun bj => M.m.entry i bj)).sum else 0) := by
      refine List.map_congr_left ?_
      intro i _
      by_cases hiF : i ∈ F
      · rw [if_pos hiF, inner_eq i hiF]
      · rw [if_neg hiF, inner_zero i hiF]
    rw [hcong,
      sum_ite_mem_range (fun fi => (B.map (fun bj => M.m.entry fi bj)).sum)
        F M.features_dim hFnd hF]
  have hshape : ((M.select_features F).select_barcodes B).m.shape
      = (F.length, B.length) := by
    show ((M.m.selectRows F).selectCols B).shape = _
    rw [shape_selectCols, shape_selectRows]
  have hent : ∀ i j, i < F.length → j < B.length →
      ((M.select_features F).select_barcodes B).m.entry i j
        = M.m.entry (F.getD i 0) (B.getD j 0) := by
    intro i j hi hj
    show ((M.m.selectRows F).selectCols B).entry i j = _
    rw [entry_selectCols (M.m.selectRows F) B i j hj]
    have hmem : B.getD j 0 ∈ B := by
      rw [List.getD_eq_getElem?_getD, List.getElem?_eq_getElem hj]
      exact List.getElem_mem hj
    refine entry_selectRows M.m F i (B.getD j 0) hi ?_
    rw [hwf]
    exact hB (B.getD j 0) hmem
  have hR : ((M.select_features F).select_barcodes B).m.sumAll
      = (F.map (fun fi => (B.map (fun bj => M.m.entry fi bj)).sum)).sum := by
    rw [SpMatrix.sumAll, hshape]
    have hcong : (List.range (F.length, B.length).1).map (fun i =>
          ((List.range (F.length, B.length).2).map (fun j =>
            ((M.select_features F).select_barcodes B).m.entry i j)).sum)
        = (List.range F.length).map (fun i =>
          ((List.range B.length).map (fun j =>
            M.m.entry (F.getD i 0) (B.getD j 0))).sum) := by
      refine List.map_congr_left ?_
      intro i hi
      rw [List.mem_range] at hi
      refine congrArg _ (List.map_congr_left ?_)
      intro j hj
      rw [List.mem_range] at hj
      exact hent i j hi hj
    rw [hcong]
    have hinner : ∀ fi, (List.range B.length).map (fun j => M.m.entry fi (B.getD j 0))
        = B.map (fun bj => M.m.entry fi bj) :=
      fun fi => map_getD_range (fun bj => M.m.entry fi bj) 0 B
    have houter : (List.range F.length).map (fun i =>
          ((List.range B.length).map (fun j =>
            M.m.entry (F.getD i 0) (B.getD j 0))).sum)
        = F.map (fun fi => (B.map (fun bj => M.m.entry fi bj)).sum) := by
      have h1 : (List.range F.length).map (fun i =>
            ((List.range B.length).map (fun j =>
              M.m.entry (F.getD i 0) (B.getD j 0))).sum)
          = (List.range F.length).map (fun i =>
            (B.map (fun bj => M.m.entry (F.getD i 0) bj)).sum) := by
        refine List.map_congr_left ?_
        intro i _
        rw [hinner (F.getD i 0)]
      rw [h1]
      exact map_getD_range (fun fi => (B.map (fun bj => M.m.entry fi bj)).sum) 0 F
    rw [houter]
  rw [hL2, hR]

/-- Witness for C6 at `MEx5` with feature subset `[0, 1]` and barcode subset
`[1]` (both sides evaluate to 2). -/
theorem c6_view_sum_eq_materialized_witness :
    ([0, 1] : List Nat).Nodup ∧ ([1] : List Nat).Nodup
    ∧ (∀ i ∈ [0, 1], i < MEx5.features_dim) ∧ (∀ j ∈ [1], j < MEx5.bcs_dim)
    ∧ MEx5.m.shape = (MEx5.features_dim, MEx5.bcs_dim)
    ∧ (CountMatrixView.ofIndices MEx5 [0, 1] [1]).sum
      = ((MEx5.select_features [0, 1]).select_barcodes [1]).m.sumAll :=
  ⟨by decide, by decide, by decide, by decide, by decide,
   c6_view_sum_eq_materialized MEx5 [0, 1] [1] (by decide) (by decide) (by decide)
     (by decide) (by decide)⟩

theorem prefLen_le_succ {α : Type} (segs : List (List α)) (j : Nat) :
    prefLen segs j ≤ prefLen segs (j + 1) := by
  by_cases hj : j < segs.length
  · rw [prefLen_succ segs j hj]
    omega
  · unfold prefLen
    rw [List.take_of_length_le (by omega), List.take_of_length_le (by omega)]

theorem prefLen_mono {α : Type} (segs : List (List α)) {j1 j2 : Nat} (h : j1 ≤ j2) :
    prefLen segs j1 ≤ prefLen segs j2 := by
  induction j2 with
  | zero =>
    have hz : j1 = 0 := by omega
    subst hz
    exact le_refl _
  | succ m ih =>
    rcases Nat.lt_or_ge j1 (m + 1) with h2 | h2
    · exact le_trans (ih (by omega)) (prefLen_le_succ segs m)
    · have hz : j1 = m + 1 := by omega
      subst hz
      exact le_refl _

theorem drop_take_eq_range'_map (l : List String) :
    ∀ (n a : Nat), a + n ≤ l.length →
      (l.drop a).take n = (List.range' a n).map (fun i => l.getD i dfltStr) := by
  intro n
  induction n with
  | zero => intro a _; simp
  | succ m ih =>
    intro a h
    have ha : a < l.length := by omega
    rw [List.range'_succ, List.map_cons, List.drop_eq_getElem_cons ha,
      List.take_succ_cons]
    congr 1
    · simp [List.getD_eq_getElem?_getD, List.getElem?_eq_getElem ha]
    · exact ih (a + 1) (by omega)

theorem load_chunk_eq_of_bounds (g : H5Group) (a b : Nat)
    (h1 : a < g.shape.2) (h2 : b ≤ g.shape.2) :
    CountMatrix.load_chunk g (a : Int) (b : Int) = .ok (CountMatrix.mk g.feature_ids
      ((g.bcs.drop a).take (b - a))
      (.csc (Csc.mk
        ((g.data.drop (g.indptr.getD a 0)).take
          ((if (b : Int) < (g.indptr.length : Int) - 1 then g.indptr.getD b 0
            else g.data.length) - g.indptr.getD a 0))
        ((g.indices.drop (g.indptr.getD a 0)).take
          ((if (b : Int) < (g.indptr.length : Int) - 1 then g.indptr.getD b 0
            else g.data.length) - g.indptr.getD a 0))
        (((g.indptr.drop a).take (b - a)
            ++ [if (b : Int) < (g.indptr.length : Int) - 1 then g.indptr.getD b 0
                else g.data.length]).map (fun x => x - g.indptr.getD a 0))
        (g.shape.1, b - a)))) := by
  rw [CountMatrix.load_chunk]
  have hcond : 0 ≤ (a : Int) ∧ (a : Int) < (g.shape.2 : Int) ∧
      0 ≤ (b : Int) ∧ (b : Int) ≤ (g.shape.2 : Int) := by
    refine ⟨by omega, ?_, by omega, ?_⟩ <;> omega
  rw [if_pos hcond]
  simp only [Int.toNat_natCast]

theorem denseToCsc_indptr_getD (r : Nat) (D : DenseCols) {j : Nat} (hj : j ≤ D.length) :
    (denseToCsc r D).indptr.getD j 0 = prefLen (D.map colNZ) j := by
  simpa [denseToCsc, fromSegs] using
    scanl_len_getD (D.map colNZ) 0 j (by simpa using hj)

theorem denseToCsc_indptr_length (r : Nat) (D : DenseCols) :
    (denseToCsc r D).indptr.length = D.length + 1 := by
  simp [denseToCsc, fromSegs, List.length_scanl]

theorem denseToCsc_data_length (r : Nat) (D : DenseCols) :
    (denseToCsc r D).data.length = prefLen (D.map colNZ) D.length := by
  show ((D.map colNZ).map (fun s => s.map Prod.snd)).flatten.length = _
  rw [flatten_length_prefLen, prefLen_map_len]
  simp

theorem chunk_indptr_getD (r : Nat) (D : DenseCols) {a b : Nat}
    (hab : a ≤ b) (hb : b ≤ D.length) :
    ∀ t, t ≤ b - a →
      (chunkOf r D a b).indptr.getD t 0
        = prefLen (D.map colNZ) (a + t) - prefLen (D.map colNZ) a := by
  intro t ht
  have hslice_len : (((denseToCsc r D).indptr.drop a).take (b - a)).length = b - a := by
    rw [List.length_take, List.length_drop, denseToCsc_indptr_length]
    omega
  show ((((denseToCsc r D).indptr.drop a).take (b - a)
      ++ [prefLen (D.map colNZ) b]).map
        (fun x => x - (denseToCsc r D).indptr.getD a 0)).getD t 0 = _
  have htlen : t < (((denseToCsc r D).indptr.drop a).take (b - a)
      ++ [prefLen (D.map colNZ) b]).length := by
    rw [List.length_append, hslice_len]
    simp
    omega
  rw [getD_map_lt (fun x => x - (denseToCsc r D).indptr.getD a 0) htlen 0 0]
  rw [denseToCsc_indptr_getD r D (le_trans hab hb)]
  rcases Nat.lt_or_ge t (b - a) with ht2 | ht2
  · rw [getD_append_left (by omega) 0, getD_drop_take _ a (b - a) t ht2 0]
    rw [denseToCsc_indptr_getD r D (by omega)]
  · have hteq : t = b - a := by omega
    subst hteq
    rw [getD_append_right (by omega) 0, hslice_len]
    simp only [Nat.sub_self, List.getD_cons_zero]
    have hb2 : a + (b - a) = b := by omega
    rw [hb2]

theorem chunkOf_entry (r : Nat) (D : DenseCols) {a b : Nat}
    (hab : a ≤ b) (hb : b ≤ D.length) (i t : Nat) :
    (chunkOf r D a b).entry i t
      = if t < b - a then denseEntry D i (a + t) else 0 := by
  have hmono : ∀ {j1 j2 : Nat}, j1 ≤ j2 →
      prefLen (D.map colNZ) j1 ≤ prefLen (D.map colNZ) j2 :=
    fun h => prefLen_mono (D.map colNZ) h
  have hindptr_len : (chunkOf r D a b).indptr.length = (b - a) + 1 := by
    show ((((denseToCsc r D).indptr.drop a).take (b - a)
        ++ [prefLen (D.map colNZ) b]).map
          (fun x => x - (denseToCsc r D).indptr.getD a 0)).length = _
    rw [List.length_map, List.length_append, List.length_take, List.length_drop,
      denseToCsc_indptr_length]
    simp
    omega
  rcases Nat.lt_or_ge t (b - a) with ht | ht
  · rw [if_pos ht]
    have hs := chunk_indptr_getD r D hab hb t (by omega)
    have he := chunk_indptr_getD r D hab hb (t + 1) (by omega)
    rw [Csc.entry, hs, he]
    have hcnt : prefLen (D.map colNZ) (a + (t + 1)) - prefLen (D.map colNZ) a
        - (prefLen (D.map colNZ) (a + t) - prefLen (D.map colNZ) a)
        = prefLen (D.map colNZ) (a + t + 1) - prefLen (D.map colNZ) (a + t) := by
      have h1 := hmono (show a ≤ a + t by omega)
      have h2 := hmono (show a + t ≤ a + (t + 1) by omega)
      have h5 : prefLen (D.map colNZ) (a + (t + 1)) = prefLen (D.map colNZ) (a + t + 1) := by
        have h3 : a + (t + 1) = a + t + 1 := by omega
        rw [h3]
      omega
    rw [hcnt]
    have hcong : (List.range' (prefLen (D.map colNZ) (a + t) - prefLen (D.map colNZ) a)
          (prefLen (D.map colNZ) (a + t + 1) - prefLen (D.map colNZ) (a + t))).map
        (fun k => if (chunkOf r D a b).indices.getD k 0 = i
          then (chunkOf r D a b).data.getD k 0 else 0)
        = (List.range' (prefLen (D.map colNZ) (a + t) - prefLen (D.map colNZ) a)
          (prefLen (D.map colNZ) (a + t + 1) - prefLen (D.map colNZ) (a + t))).map
        (fun k => if (denseToCsc r D).indices.getD (prefLen (D.map colNZ) a + k) 0 = i
          then (denseToCsc r D).data.getD (prefLen (D.map colNZ) a + k) 0 else 0) := by
      refine List.map_congr_left ?_
      intro k hk
      rw [List.mem_range'_1] at hk
      have hkb : k < prefLen (D.map colNZ) b - prefLen (D.map colNZ) a := by
        have h0 := hmono (show a + t ≤ a + t + 1 by omega)
        have h1 := hmono (show a ≤ a + t by omega)
        have h2 := hmono (show a + t + 1 ≤ b by omega)
        have h5 : prefLen (D.map colNZ) (a + (t + 1)) = prefLen (D.map colNZ) (a + t + 1) := by
          have h3 : a + (t + 1) = a + t + 1 := by omega
          rw [h3]
        omega
      have hidx : (chunkOf r D a b).indices.getD k 0
          = (denseToCsc r D).indices.getD (prefLen (D.map colNZ) a + k) 0 := by
        show (((denseToCsc r D).indices.drop ((denseToCsc r D).indptr.getD a 0)).take
          (prefLen (D.map colNZ) b - (denseToCsc r D).indptr.getD a 0)).getD k 0 = _
        rw [denseToCsc_indptr_getD r D (le_trans hab hb)]
        exact getD_drop_take _ _ _ k hkb 0
      have hdat : (chunkOf r D a b).data.getD k 0
          = (denseToCsc r D).data.getD (prefLen (D.map colNZ) a + k) 0 := by
        show (((denseToCsc r D).data.drop ((denseToCsc r D).indptr.getD a 0)).take
          (prefLen (D.map colNZ) b - (denseToCsc r D).indptr.getD a 0)).getD k 0 = _
        rw [denseToCsc_indptr_getD r D (le_trans hab hb)]
        exact getD_drop_take _ _ _ k hkb 0
      rw [hidx, hdat]
    rw [hcong]
    have hshift : prefLen (D.map colNZ) a
        + (prefLen (D.map colNZ) (a + t) - prefLen (D.map colNZ) a)
        = prefLen (D.map colNZ) (a + t) := by
      have h1 := hmono (show a ≤ a + t by omega)
      omega
    rw [← sum_range'_shift
      (fun k => if (denseToCsc r D).indices.getD k 0 = i
        then (denseToCsc r D).data.getD k 0 else 0)
      (prefLen (D.map colNZ) a) _ _, hshift]
    have hfull : ((List.range' (prefLen (D.map colNZ) (a + t))
        (prefLen (D.map colNZ) (a + t + 1) - prefLen (D.map colNZ) (a + t))).map
        (fun k => if (denseToCsc r D).indices.getD k 0 = i
          then (denseToCsc r D).data.getD k 0 else 0)).sum
        = (denseToCsc r D).entry i (a + t) := by
      rw [Csc.entry]
      rw [denseToCsc_indptr_getD r D (show a + t ≤ D.length by omega),
        denseToCsc_indptr_getD r D (show a + t + 1 ≤ D.length by omega)]
    rw [hfull]
    exact entry_denseToCsc r D i (a + t)
  · rw [if_neg (by omega)]
    rcases Nat.lt_or_ge t ((b - a) + 1) with ht2 | ht2
    · have hteq : t = b - a := by omega
      subst hteq
      have hs := chunk_indptr_getD r D hab hb (b - a) (le_refl _)
      have he : (chunkOf r D a b).indptr.getD ((b - a) + 1) 0 = 0 :=
        getD_oob (by omega) 0
      rw [Csc.entry, hs, he]
      simp
    · have hs : (chunkOf r D a b).indptr.getD t 0 = 0 := getD_oob (by omega) 0
      have he : (chunkOf r D a b).indptr.getD (t + 1) 0 = 0 := getD_oob (by omega) 0
      rw [Csc.entry, hs, he]
      simp

theorem selectCols_range'_entry (r : Nat) (D : DenseCols) {a b : Nat}
    (hb : b ≤ D.length) (i t : Nat) :
    ((denseToCsc r D).selectCols (List.range' a (b - a))).entry i t
      = if t < b - a then denseEntry D i (a + t) else 0 := by
  by_cases ht : t < b - a
  · rw [if_pos ht, cscEntry_selectCols _ _ _ _ (by simpa using ht)]
    rw [getD_range'_lt ht 0]
    exact entry_denseToCsc r D i (a + t)
  · rw [if_neg ht]
    have h := entry_selectCols_oob (SpMatrix.csc (denseToCsc r D))
      (List.range' a (b - a)) i t (by simpa using Nat.le_of_not_lt ht)
    exact h

/-- C2 amended: for a persisted matrix (the group written by `save_h5_group`
from an in-memory matrix with consistent axes) and any column range `[a, b)`
with `0 ≤ a ≤ b ≤ bcs_dim` and `a < bcs_dim`, `load_chunk` succeeds and
yields the same matrix as `load` followed by `select_barcodes(range(a, b))`:
same shape `(features_dim, b - a)`, same barcode slice, same value at every
coordinate; and the rebuilt column pointers are `indptr[a:b]` with
`indptr[a]` subtracted and the computed end offset appended.  (The case
`a = bcs_dim` - in particular the empty range `[bcs_dim, bcs_dim)` allowed by
the claim - is instead rejected by the bounds assertion, see the
counterexample.) -/
theorem c2_load_chunk_eq_select (ids bcs : List String) (r : Nat) (D : DenseCols)
    (hD : D.length = bcs.length) (hr : r = ids.length)
    (a b : Nat) (hab : a ≤ b) (hbb : b ≤ bcs.length) (ha : a < bcs.length) :
    ∃ Mc Mf,
      CountMatrix.load_chunk (CountMatrix.mk ids bcs (.lil r D)).save_h5_group
          (a : Int) (b : Int) = .ok Mc
      ∧ CountMatrix.load (CountMatrix.mk ids bcs (.lil r D)).save_h5_group = .ok Mf
      ∧ Mc.feature_ids = (Mf.select_barcodes (List.range' a (b - a))).feature_ids
      ∧ Mc.bcs = (Mf.select_barcodes (List.range' a (b - a))).bcs
      ∧ Mc.m.shape = (ids.length, b - a)
      ∧ (Mf.select_barcodes (List.range' a (b - a))).m.shape = (ids.length, b - a)
      ∧ (∀ i t, Mc.m.entry i t
          = (Mf.select_barcodes (List.range' a (b - a))).m.entry i t)
      ∧ (∃ c, Mc.m = .csc c ∧ c.indptr
          = (((CountMatrix.mk ids bcs (.lil r D)).save_h5_group.indptr.drop a).take (b - a)
              ++ [(CountMatrix.mk ids bcs (.lil r D)).save_h5_group.indptr.getD b 0]).map
            (fun x =>
              x - (CountMatrix.mk ids bcs (.lil r D)).save_h5_group.indptr.getD a 0)) := by
  have hDb : b ≤ D.length := by omega
  have hDa : a < D.length := by omega
  have hg_indptr : (CountMatrix.mk ids bcs (.lil r D)).save_h5_group.indptr
      = (denseToCsc r D).indptr := rfl
  have hg_shape2 : (CountMatrix.mk ids bcs (.lil r D)).save_h5_group.shape.2
      = D.length := by
    show (denseToCsc r D).shape.2 = D.length
    simp [denseToCsc, fromSegs]
  have hindE : (if (b : Int) <
        (((CountMatrix.mk ids bcs (.lil r D)).save_h5_group.indptr.length : Nat) : Int) - 1
      then (CountMatrix.mk ids bcs (.lil r D)).save_h5_group.indptr.getD b 0
      else (CountMatrix.mk ids bcs (.lil r D)).save_h5_group.data.length)
      = prefLen (D.map colNZ) b := by
    rw [hg_indptr, denseToCsc_indptr_length]
    rcases Nat.lt_or_ge b D.length with hb2 | hb2
    · rw [if_pos (by omega)]
      exact denseToCsc_indptr_getD r D hDb
    · have hbeq : b = D.length := by omega
      rw [if_neg (by omega)]
      show (denseToCsc r D).data.length = _
      rw [denseToCsc_data_length, hbeq]
  have hstep1 : CountMatrix.load_chunk (CountMatrix.mk ids bcs (.lil r D)).save_h5_group
      (a : Int) (b : Int)
      = .ok (CountMatrix.mk ids ((bcs.drop a).take (b - a)) (.csc (chunkOf r D a b))) := by
    rw [load_chunk_eq_of_bounds _ a b (by omega) (by omega)]
    rw [show (CountMatrix.mk ids bcs (.lil r D)).save_h5_group.bcs = bcs from rfl]
    rw [show (CountMatrix.mk ids bcs (.lil r D)).save_h5_group.feature_ids = ids from rfl]
    rw [hindE, hg_indptr]
    rw [show (CountMatrix.mk ids bcs (.lil r D)).save_h5_group.data
      = (denseToCsc r D).data from rfl]
    rw [show (CountMatrix.mk ids bcs (.lil r D)).save_h5_group.indices
      = (denseToCsc r D).indices from rfl]
    rw [show (CountMatrix.mk ids bcs (.lil r D)).save_h5_group.shape.1 = r from rfl]
    rfl
  have hmono : checkMono (denseToCsc r D).indptr = true := by
    simpa [denseToCsc, fromSegs] using checkMono_scanl (D.map colNZ) 0
  have hstep2 : CountMatrix.load (CountMatrix.mk ids bcs (.lil r D)).save_h5_group
      = .ok (CountMatrix.mk ids bcs (.csc (denseToCsc r D))) := by
    simp [CountMatrix.load, CountMatrix.save_h5_group, SpMatrix.tocsc, hmono]
  refine ⟨CountMatrix.mk ids ((bcs.drop a).take (b - a)) (.csc (chunkOf r D a b)),
    CountMatrix.mk ids bcs (.csc (denseToCsc r D)), hstep1, hstep2, rfl, ?_, ?_, ?_, ?_, ?_⟩
  · show (bcs.drop a).take (b - a)
      = (List.range' a (b - a)).map (fun i => bcs.getD i dfltStr)
    exact drop_take_eq_range'_map bcs (b - a) a (by omega)
  · show (chunkOf r D a b).shape = (ids.length, b - a)
    rw [chunkOf, hr]
  · show ((SpMatrix.csc (denseToCsc r D)).selectCols (List.range' a (b - a))).shape = _
    rw [shape_selectCols]
    show ((denseToCsc r D).shape.1, (List.range' a (b - a)).length) = _
    rw [List.length_range']
    rw [show (denseToCsc r D).shape.1 = r from rfl, hr]
  · intro i t
    show (chunkOf r D a b).entry i t
      = ((denseToCsc r D).selectCols (List.range' a (b - a))).entry i t
    rw [chunkOf_entry r D hab hDb i t, selectCols_range'_entry r D hDb i t]
  · refine ⟨chunkOf r D a b, rfl, ?_⟩
    rw [hg_indptr, denseToCsc_indptr_getD r D hDb]
    rfl

/-- Counterexample for C2: on the persisted group of `MEx1` (one barcode
column), the column range `[1, 1)` lies inside the claim's quantification
`0 ≤ a ≤ b ≤ bcs_dim`, yet `load_chunk` rejects it with the bounds error
while `load` followed by `select_barcodes(range(1, 1))` produces a matrix -
so the two sides are not equal there. -/
theorem c2_counterexample :
    ((0 : Int) ≤ 1 ∧ (1 : Int) ≤ 1 ∧ (1 : Int) ≤ ((gEx1.shape.2 : Nat) : Int))
    ∧ CountMatrix.load_chunk gEx1 1 1 = .error .bounds
    ∧ (∃ Mf, CountMatrix.load gEx1 = .ok Mf
        ∧ ((Mf.select_barcodes (List.range' 1 0)).m.shape = (1, 0))) :=
  ⟨by decide, by decide,
    ⟨CountMatrix.mk ["g1"] ["b1"] (.csc (denseToCsc 1 [[5]])), by decide, by decide⟩⟩

/-- Witness for C2 amended on the persisted form of `MEx2` with the column
range `[0, 1)`. -/
theorem c2_load_chunk_eq_select_witness :
    ([[5], [0]] : DenseCols).length = (["b1", "b2"] : List String).length
    ∧ 1 = (["g1"] : List String).length
    ∧ (0 : Nat) ≤ 1 ∧ (1 : Nat) ≤ (["b1", "b2"] : List String).length
    ∧ (0 : Nat) < (["b1", "b2"] : List String).length
    ∧ ∃ Mc Mf,
      CountMatrix.load_chunk
          (CountMatrix.mk ["g1"] ["b1", "b2"] (.lil 1 [[5], [0]])).save_h5_group
          ((0 : Nat) : Int) ((1 : Nat) : Int) = .ok Mc
      ∧ CountMatrix.load
          (CountMatrix.mk ["g1"] ["b1", "b2"] (.lil 1 [[5], [0]])).save_h5_group = .ok Mf
      ∧ Mc.feature_ids = (Mf.select_barcodes (List.range' 0 (1 - 0))).feature_ids
      ∧ Mc.bcs = (Mf.select_barcodes (List.range' 0 (1 - 0))).bcs
      ∧ Mc.m.shape = ((["g1"] : List String).length, 1 - 0)
      ∧ (Mf.select_barcodes (List.range' 0 (1 - 0))).m.shape
          = ((["g1"] : List String).length, 1 - 0)
      ∧ (∀ i t, Mc.m.entry i t
          = (Mf.select_barcodes (List.range' 0 (1 - 0))).m.entry i t)
      ∧ (∃ c, Mc.m = .csc c ∧ c.indptr
          = (((CountMatrix.mk ["g1"] ["b1", "b2"]
                (.lil 1 [[5], [0]])).save_h5_group.indptr.drop 0).take (1 - 0)
              ++ [(CountMatrix.mk ["g1"] ["b1", "b2"]
                (.lil 1 [[5], [0]])).save_h5_group.indptr.getD 1 0]).map
            (fun x => x - (CountMatrix.mk ["g1"] ["b1", "b2"]
                (.lil 1 [[5], [0]])).save_h5_group.indptr.getD 0 0)) :=
  ⟨by decide, by decide, by decide, by decide, by decide,
    c2_load_chunk_eq_select ["g1"] ["b1", "b2"] 1 [[5], [0]] (by decide) (by decide)
      0 1 (by decide) (by decide) (by decide)⟩
